import Mathlib

/-! Vector classes of `cmp_math_vec4.h`.

A shallow embedding of the class templates `Vec2T<T>`, `Vec3T<T>` and `Vec4T<T>` of
`cmp_core/source/cmp_math_vec4.h`.

* The template argument `T` is a Lean type together with a record `Scalar T` of the built-in
  operators the member functions apply to values of type `T`.
* The integer element types of the typedefs (`int`, `unsigned int`, `unsigned char`) are
  instances of that record over `Int`, with explicit reduction modulo `2 ^ bits`.
* The element type `float` is described as far as its comparison operators go, on IEEE 754
  bit patterns; its arithmetic is left as a parameter.
* A member function that writes to `*this` is a function from the old object to the new one,
  one field update per source statement, in source order.  Its operand is a `const` reference,
  so it is read again at every statement, from the current state when it refers to the
  receiver.
* The anonymous unions are accessors onto the one stored tuple `x, y, z, w`.
-/

namespace CmpMath

/-! ## Element types -/

/-- The built-in operators of an element type `T` that the vector templates use.  A result is
already converted back to `T`, as the constructor call or the compound assignment does.
`none` stands for an operation the language leaves undefined. -/
structure Scalar (T : Type) where
  /-- The value of `(T)0`. -/
  zero : T
  /-- The operator `a + b`. -/
  add : T → T → T
  /-- The operator `a - b`. -/
  sub : T → T → T
  /-- The operator `a * b`. -/
  mul : T → T → T
  /-- The operator `a / b`. -/
  div : T → T → Option T
  /-- The operator `-a`. -/
  neg : T → T
  /-- The operator `a << s`. -/
  shl : T → T → Option T
  /-- The operator `a >> s`. -/
  shr : T → T → Option T
  /-- The operator `a == b`. -/
  eq : T → T → Bool
  /-- The operator `a != b`. -/
  ne : T → T → Bool

/-- An integer type of the target: its width in bits and its signedness. -/
structure IntTy where
  bits : Nat
  signed : Bool
deriving DecidableEq, Repr

/-- Conversion of a mathematical integer to the type: reduction modulo `2 ^ bits` into the
unsigned range, or into the two's complement range for a signed type. -/
def IntTy.conv (ty : IntTy) (n : Int) : Int :=
  if ty.signed then (n + 2 ^ (ty.bits - 1)) % 2 ^ ty.bits - 2 ^ (ty.bits - 1)
  else n % 2 ^ ty.bits

/-- The values of the type are the fixed points of the conversion. -/
def IntTy.inRange (ty : IntTy) (n : Int) : Prop := ty.conv n = n

instance (ty : IntTy) (n : Int) : Decidable (ty.inRange n) := by
  unfold IntTy.inRange; infer_instance

/-- Integral promotion: a type narrower than `int` is promoted to `int` (32 bits, signed), any
other type is kept. -/
def IntTy.prom (ty : IntTy) : IntTy :=
  if ty.bits < 32 then ⟨32, true⟩ else ty

/-- The operators of an integer element type.  The operands are promoted, the operation is done
in the promoted type with wraparound, and the result is converted back to the element type.
Division has no result for a zero divisor or a quotient the promoted type cannot hold; a shift
has no result for a shift amount that is negative or not below the promoted width. -/
def IntTy.scalar (ty : IntTy) : Scalar Int where
  zero := ty.conv 0
  add a b := ty.conv (ty.prom.conv (a + b))
  sub a b := ty.conv (ty.prom.conv (a - b))
  mul a b := ty.conv (ty.prom.conv (a * b))
  div a b :=
    if b = 0 then none
    else if ty.prom.conv (Int.tdiv a b) = Int.tdiv a b then some (ty.conv (Int.tdiv a b))
    else none
  neg a := ty.conv (ty.prom.conv (-a))
  shl a s :=
    if 0 ≤ s ∧ s < ty.prom.bits then some (ty.conv (ty.prom.conv (a * 2 ^ s.toNat))) else none
  shr a s :=
    if 0 ≤ s ∧ s < ty.prom.bits then some (ty.conv (a / 2 ^ s.toNat)) else none
  eq a b := decide (a = b)
  ne a b := decide (a ≠ b)

/-- The element type `int`. -/
def cInt : IntTy := ⟨32, true⟩

/-- The element type `unsigned int`. -/
def cUInt : IntTy := ⟨32, false⟩

/-- The element type `unsigned char`. -/
def cUChar : IntTy := ⟨8, false⟩

/-- A value of the element type `float`: an IEEE 754 binary32 bit pattern, with its sign bit,
its 8 exponent bits and its 23 fraction bits. -/
structure F32 where
  sign : Bool
  expo : Fin 256
  mant : Fin 8388608
deriving DecidableEq, Repr

/-- A NaN: all exponent bits set and a non-zero fraction. -/
def F32.isNaN (f : F32) : Bool := decide (f.expo = 255) && decide (f.mant ≠ 0)

/-- A zero, of either sign: no exponent bit and no fraction bit set. -/
def F32.isZero (f : F32) : Bool := decide (f.expo = 0) && decide (f.mant = 0)

/-- The operator `a == b` on `float`: false when an operand is a NaN; the two zeros compare
equal; any other two values compare equal when they are the same bit pattern. -/
def F32.eq (a b : F32) : Bool :=
  !a.isNaN && !b.isNaN && ((a.isZero && b.isZero) || decide (a = b))

/-- The operator `a != b` on `float`: true when an operand is a NaN, and otherwise when the
values are neither both zero nor the same bit pattern. -/
def F32.ne (a b : F32) : Bool :=
  a.isNaN || b.isNaN || !((a.isZero && b.isZero) || decide (a = b))

/-- The value `0.0f`, which is `(float)0`. -/
def F32.zero : F32 := ⟨false, 0, 0⟩

/-- A scalar operand passed by reference to a member of an `n`-component vector: a value held
outside the receiver, or the component of the receiver at a position. -/
inductive SRef (T : Type) (n : Nat) where
  | ext (t : T)
  | comp (i : Fin n)
deriving DecidableEq, Repr

/-- A vector operand passed by reference: a vector outside the receiver, or the receiver. -/
inductive VRef (V : Type) where
  | ext (v : V)
  | self
deriving DecidableEq, Repr

/-- The vector a reference denotes when the receiver is in state `cur`. -/
def VRef.read {V : Type} (r : VRef V) (cur : V) : V :=
  match r with
  | .ext v => v
  | .self => cur

/-! ## `Vec2T` -/

/-- The class `Vec2T<T>`: the members `x`, `y`. -/
structure Vec2T (T : Type) where
  x : T
  y : T
deriving DecidableEq, Repr

namespace Vec2T

variable {T : Type}

/-- Default constructor. -/
def defaultCtor (S : Scalar T) : Vec2T T := ⟨S.zero, S.zero⟩

/-- Value constructor. -/
def valueCtor (vx vy : T) : Vec2T T := ⟨vx, vy⟩

/-- Single value constructor. -/
def singleCtor (v : T) : Vec2T T := ⟨v, v⟩

/-- The cast to `T*`: the object seen as consecutive elements, in declaration order. -/
def toBuf (v : Vec2T T) : List T := [v.x, v.y]

/-- The element at position `i` of the object. -/
def get (v : Vec2T T) (i : Fin 2) : T :=
  match i with
  | 0 => v.x
  | 1 => v.y

/-- The object after a store to position `i`. -/
def set (v : Vec2T T) (i : Fin 2) (t : T) : Vec2T T :=
  match i with
  | 0 => { v with x := t }
  | 1 => { v with y := t }

/-- The value of a scalar reference when the receiver is in state `cur`. -/
def readS (r : SRef T 2) (cur : Vec2T T) : T :=
  match r with
  | .ext t => t
  | .comp i => cur.get i

/-- Indexing for reading, `operator[](int i) const`: position `i` of the cast to `T*`; a
position outside the object is not defined. -/
def index (v : Vec2T T) (i : Int) : Option T :=
  if 0 ≤ i then v.toBuf.get? i.toNat else none

/-- A store through the reference `operator[](int i)` returns. -/
def setIndex (v : Vec2T T) (i : Int) (t : T) : Option (Vec2T T) :=
  if i = 0 then some { v with x := t }
  else if i = 1 then some { v with y := t }
  else none

/-- Assignment, `operator=`. -/
def assign (v : Vec2T T) (rhs : VRef (Vec2T T)) : Vec2T T :=
  let v1 := { v with x := (rhs.read v).x }
  let v2 := { v1 with y := (rhs.read v1).y }
  v2

/-- Equality comparison, `operator==`. -/
def eq (S : Scalar T) (v rhs : Vec2T T) : Bool :=
  S.eq v.x rhs.x && S.eq v.y rhs.y

/-- Inequality comparison, `operator!=`. -/
def ne (S : Scalar T) (v rhs : Vec2T T) : Bool :=
  S.ne v.x rhs.x || S.ne v.y rhs.y

/-- Addition, `operator+`. -/
def add (S : Scalar T) (v rhs : Vec2T T) : Vec2T T :=
  valueCtor (S.add v.x rhs.x) (S.add v.y rhs.y)

/-- Subtraction, `operator-`. -/
def sub (S : Scalar T) (v rhs : Vec2T T) : Vec2T T :=
  valueCtor (S.sub v.x rhs.x) (S.sub v.y rhs.y)

/-- Multiply, `operator*`. -/
def mul (S : Scalar T) (v rhs : Vec2T T) : Vec2T T :=
  valueCtor (S.mul v.x rhs.x) (S.mul v.y rhs.y)

/-- Divide, `operator/`. -/
def div (S : Scalar T) (v rhs : Vec2T T) : Option (Vec2T T) := do
  let qx ← S.div v.x rhs.x
  let qy ← S.div v.y rhs.y
  pure (valueCtor qx qy)

/-- Multiply by scalar, `operator*(const T&)`. -/
def mulS (S : Scalar T) (v : Vec2T T) (s : T) : Vec2T T :=
  valueCtor (S.mul v.x s) (S.mul v.y s)

/-- Divide by scalar, `operator/(const T&)`. -/
def divS (S : Scalar T) (v : Vec2T T) (s : T) : Option (Vec2T T) := do
  let qx ← S.div v.x s
  let qy ← S.div v.y s
  pure (valueCtor qx qy)

/-- Addition in-place, `operator+=`. -/
def addAssign (S : Scalar T) (v : Vec2T T) (rhs : VRef (Vec2T T)) : Vec2T T :=
  let v1 := { v with x := S.add v.x (rhs.read v).x }
  let v2 := { v1 with y := S.add v1.y (rhs.read v1).y }
  v2

/-- Subtract in-place, `operator-=`. -/
def subAssign (S : Scalar T) (v : Vec2T T) (rhs : VRef (Vec2T T)) : Vec2T T :=
  let v1 := { v with x := S.sub v.x (rhs.read v).x }
  let v2 := { v1 with y := S.sub v1.y (rhs.read v1).y }
  v2

/-- Scalar multiply in-place, `operator*=`. -/
def mulAssign (S : Scalar T) (v : Vec2T T) (s : SRef T 2) : Vec2T T :=
  let v1 := { v with x := S.mul v.x (readS s v) }
  let v2 := { v1 with y := S.mul v1.y (readS s v1) }
  v2

/-- Scalar divide in-place, `operator/=`. -/
def divAssign (S : Scalar T) (v : Vec2T T) (s : SRef T 2) : Option (Vec2T T) := do
  let qx ← S.div v.x (readS s v)
  let v1 := { v with x := qx }
  let qy ← S.div v1.y (readS s v1)
  let v2 := { v1 with y := qy }
  pure v2

end Vec2T

/-! ## `Vec3T` -/

/-- The class `Vec3T<T>`: the stored members `x`, `y`, `z` of the anonymous union. -/
structure Vec3T (T : Type) where
  x : T
  y : T
  z : T
deriving DecidableEq, Repr

namespace Vec3T

variable {T : Type}

/-- The union member `r`, at the place of `x`. -/
def r (v : Vec3T T) : T := v.x

/-- The union member `g`, at the place of `y`. -/
def g (v : Vec3T T) : T := v.y

/-- The union member `b`, at the place of `z`. -/
def b (v : Vec3T T) : T := v.z

/-- A store to the member `x`. -/
def setX (v : Vec3T T) (t : T) : Vec3T T := { v with x := t }

/-- A store to the member `y`. -/
def setY (v : Vec3T T) (t : T) : Vec3T T := { v with y := t }

/-- A store to the member `z`. -/
def setZ (v : Vec3T T) (t : T) : Vec3T T := { v with z := t }

/-- A store to the union member `r`. -/
def setR (v : Vec3T T) (t : T) : Vec3T T := { v with x := t }

/-- A store to the union member `g`. -/
def setG (v : Vec3T T) (t : T) : Vec3T T := { v with y := t }

/-- A store to the union member `b`. -/
def setB (v : Vec3T T) (t : T) : Vec3T T := { v with z := t }

/-- The union member `rg`: the `Vec2T<T>` at the place of the first two components. -/
def rg (v : Vec3T T) : Vec2T T := ⟨v.x, v.y⟩

/-- The object after the member `rg` has been brought to the state `p`. -/
def setRg (v : Vec3T T) (p : Vec2T T) : Vec3T T := { v with x := p.x, y := p.y }

/-- A mutating `Vec2T` member function run on the member `rg`. -/
def viaRg (f : Vec2T T → Vec2T T) (v : Vec3T T) : Vec3T T := v.setRg (f v.rg)

/-- Default constructor. -/
def defaultCtor (S : Scalar T) : Vec3T T := ⟨S.zero, S.zero, S.zero⟩

/-- Value constructor. -/
def valueCtor (vx vy vz : T) : Vec3T T := ⟨vx, vy, vz⟩

/-- Single value constructor. -/
def singleCtor (v : T) : Vec3T T := ⟨v, v, v⟩

/-- Array constructor: reads `v[0]`, `v[1]`, `v[2]`; a read past the end of the array is not
defined. -/
def arrayCtor (v : List T) : Option (Vec3T T) := do
  let vx ← v.get? 0
  let vy ← v.get? 1
  let vz ← v.get? 2
  pure ⟨vx, vy, vz⟩

/-- The cast to `T*`: the object seen as consecutive elements, in declaration order. -/
def toBuf (v : Vec3T T) : List T := [v.x, v.y, v.z]

/-- The element at position `i` of the object. -/
def get (v : Vec3T T) (i : Fin 3) : T :=
  match i with
  | 0 => v.x
  | 1 => v.y
  | 2 => v.z

/-- The value of a scalar reference when the receiver is in state `cur`. -/
def readS (s : SRef T 3) (cur : Vec3T T) : T :=
  match s with
  | .ext t => t
  | .comp i => cur.get i

/-- Assignment, `operator=`. -/
def assign (v : Vec3T T) (rhs : VRef (Vec3T T)) : Vec3T T :=
  let v1 := { v with x := (rhs.read v).x }
  let v2 := { v1 with y := (rhs.read v1).y }
  let v3 := { v2 with z := (rhs.read v2).z }
  v3

/-- Equality comparison, `operator==`. -/
def eq (S : Scalar T) (v rhs : Vec3T T) : Bool :=
  S.eq v.x rhs.x && S.eq v.y rhs.y && S.eq v.z rhs.z

/-- Inequality comparison, `operator!=`. -/
def ne (S : Scalar T) (v rhs : Vec3T T) : Bool :=
  S.ne v.x rhs.x || S.ne v.y rhs.y || S.ne v.z rhs.z

/-- Addition by vector, `operator+`. -/
def add (S : Scalar T) (v rhs : Vec3T T) : Vec3T T :=
  valueCtor (S.add v.x rhs.x) (S.add v.y rhs.y) (S.add v.z rhs.z)

/-- Subtraction by vector, `operator-`. -/
def sub (S : Scalar T) (v rhs : Vec3T T) : Vec3T T :=
  valueCtor (S.sub v.x rhs.x) (S.sub v.y rhs.y) (S.sub v.z rhs.z)

/-- Multiply by vector, `operator*`. -/
def mul (S : Scalar T) (v rhs : Vec3T T) : Vec3T T :=
  valueCtor (S.mul v.x rhs.x) (S.mul v.y rhs.y) (S.mul v.z rhs.z)

/-- Divide by vector, `operator/`. -/
def div (S : Scalar T) (v rhs : Vec3T T) : Option (Vec3T T) := do
  let qx ← S.div v.x rhs.x
  let qy ← S.div v.y rhs.y
  let qz ← S.div v.z rhs.z
  pure (valueCtor qx qy qz)

/-- Multiply by scalar, `operator*(const T&)`. -/
def mulS (S : Scalar T) (v : Vec3T T) (s : T) : Vec3T T :=
  valueCtor (S.mul v.x s) (S.mul v.y s) (S.mul v.z s)

/-- Divide by scalar, `operator/(const T&)`. -/
def divS (S : Scalar T) (v : Vec3T T) (s : T) : Option (Vec3T T) := do
  let qx ← S.div v.x s
  let qy ← S.div v.y s
  let qz ← S.div v.z s
  pure (valueCtor qx qy qz)

/-- Add by scalar, `operator+(const T&)`. -/
def addS (S : Scalar T) (v : Vec3T T) (s : T) : Vec3T T :=
  valueCtor (S.add v.x s) (S.add v.y s) (S.add v.z s)

/-- Subtract by scalar, `operator-(const T&)`. -/
def subS (S : Scalar T) (v : Vec3T T) (s : T) : Vec3T T :=
  valueCtor (S.sub v.x s) (S.sub v.y s) (S.sub v.z s)

/-- Addition in-place, `operator+=`. -/
def addAssign (S : Scalar T) (v : Vec3T T) (rhs : VRef (Vec3T T)) : Vec3T T :=
  let v1 := { v with x := S.add v.x (rhs.read v).x }
  let v2 := { v1 with y := S.add v1.y (rhs.read v1).y }
  let v3 := { v2 with z := S.add v2.z (rhs.read v2).z }
  v3

/-- Subtract in-place, `operator-=`. -/
def subAssign (S : Scalar T) (v : Vec3T T) (rhs : VRef (Vec3T T)) : Vec3T T :=
  let v1 := { v with x := S.sub v.x (rhs.read v).x }
  let v2 := { v1 with y := S.sub v1.y (rhs.read v1).y }
  let v3 := { v2 with z := S.sub v2.z (rhs.read v2).z }
  v3

/-- Scalar multiply in-place, `operator*=`. -/
def mulAssign (S : Scalar T) (v : Vec3T T) (s : SRef T 3) : Vec3T T :=
  let v1 := { v with x := S.mul v.x (readS s v) }
  let v2 := { v1 with y := S.mul v1.y (readS s v1) }
  let v3 := { v2 with z := S.mul v2.z (readS s v2) }
  v3

/-- Scalar add in-place, `operator+=(const T&)`. -/
def addAssignS (S : Scalar T) (v : Vec3T T) (s : SRef T 3) : Vec3T T :=
  let v1 := { v with x := S.add v.x (readS s v) }
  let v2 := { v1 with y := S.add v1.y (readS s v1) }
  let v3 := { v2 with z := S.add v2.z (readS s v2) }
  v3

/-- Scalar divide in-place, `operator/=`. -/
def divAssign (S : Scalar T) (v : Vec3T T) (s : SRef T 3) : Option (Vec3T T) := do
  let qx ← S.div v.x (readS s v)
  let v1 := { v with x := qx }
  let qy ← S.div v1.y (readS s v1)
  let v2 := { v1 with y := qy }
  let qz ← S.div v2.z (readS s v2)
  let v3 := { v2 with z := qz }
  pure v3

end Vec3T

/-! ## `Vec4T` -/

/-- The class `Vec4T<T>`: the stored members `x`, `y`, `z`, `w` of the anonymous union. -/
structure Vec4T (T : Type) where
  x : T
  y : T
  z : T
  w : T
deriving DecidableEq, Repr

namespace Vec4T

variable {T : Type}

/-- The union member `r`, at the place of `x`. -/
def r (v : Vec4T T) : T := v.x

/-- The union member `g`, at the place of `y`. -/
def g (v : Vec4T T) : T := v.y

/-- The union member `b`, at the place of `z`. -/
def b (v : Vec4T T) : T := v.z

/-- The union member `a`, at the place of `w`. -/
def a (v : Vec4T T) : T := v.w

/-- A store to the member `x`. -/
def setX (v : Vec4T T) (t : T) : Vec4T T := { v with x := t }

/-- A store to the member `y`. -/
def setY (v : Vec4T T) (t : T) : Vec4T T := { v with y := t }

/-- A store to the member `z`. -/
def setZ (v : Vec4T T) (t : T) : Vec4T T := { v with z := t }

/-- A store to the member `w`. -/
def setW (v : Vec4T T) (t : T) : Vec4T T := { v with w := t }

/-- A store to the union member `r`. -/
def setR (v : Vec4T T) (t : T) : Vec4T T := { v with x := t }

/-- A store to the union member `g`. -/
def setG (v : Vec4T T) (t : T) : Vec4T T := { v with y := t }

/-- A store to the union member `b`. -/
def setB (v : Vec4T T) (t : T) : Vec4T T := { v with z := t }

/-- A store to the union member `a`. -/
def setA (v : Vec4T T) (t : T) : Vec4T T := { v with w := t }

/-- The union member `rgb`: the `Vec3T<T>` at the place of the first three components. -/
def rgb (v : Vec4T T) : Vec3T T := ⟨v.x, v.y, v.z⟩

/-- The object after the member `rgb` has been brought to the state `p`. -/
def setRgb (v : Vec4T T) (p : Vec3T T) : Vec4T T := { v with x := p.x, y := p.y, z := p.z }

/-- A mutating `Vec3T` member function run on the member `rgb`. -/
def viaRgb (f : Vec3T T → Vec3T T) (v : Vec4T T) : Vec4T T := v.setRgb (f v.rgb)

/-- A mutating `Vec3T` member function that may have no result, run on the member `rgb`. -/
def viaRgbOpt (f : Vec3T T → Option (Vec3T T)) (v : Vec4T T) : Option (Vec4T T) :=
  (f v.rgb).map v.setRgb

/-- Default constructor. -/
def defaultCtor (S : Scalar T) : Vec4T T := ⟨S.zero, S.zero, S.zero, S.zero⟩

/-- Value constructor. -/
def valueCtor (vx vy vz vw : T) : Vec4T T := ⟨vx, vy, vz, vw⟩

/-- Single value constructor. -/
def singleCtor (v : T) : Vec4T T := ⟨v, v, v, v⟩

/-- Array constructor: reads `v[0]`, `v[1]`, `v[2]`, `v[3]`; a read past the end of the array
is not defined. -/
def arrayCtor (v : List T) : Option (Vec4T T) := do
  let vx ← v.get? 0
  let vy ← v.get? 1
  let vz ← v.get? 2
  let vw ← v.get? 3
  pure ⟨vx, vy, vz, vw⟩

/-- The cast to `T*`: the object seen as consecutive elements, in declaration order. -/
def toBuf (v : Vec4T T) : List T := [v.x, v.y, v.z, v.w]

/-- The element at position `i` of the object. -/
def get (v : Vec4T T) (i : Fin 4) : T :=
  match i with
  | 0 => v.x
  | 1 => v.y
  | 2 => v.z
  | 3 => v.w

/-- The value of a scalar reference when the receiver is in state `cur`. -/
def readS (s : SRef T 4) (cur : Vec4T T) : T :=
  match s with
  | .ext t => t
  | .comp i => cur.get i

/-- Assignment from a scalar, `operator=(const T&)`. -/
def assignS (v : Vec4T T) (s : SRef T 4) : Vec4T T :=
  let v1 := { v with x := readS s v }
  let v2 := { v1 with y := readS s v1 }
  let v3 := { v2 with z := readS s v2 }
  let v4 := { v3 with w := readS s v3 }
  v4

/-- Assignment, `operator=(const Vec4T<T>&)`. -/
def assign (v : Vec4T T) (rhs : VRef (Vec4T T)) : Vec4T T :=
  let v1 := { v with x := (rhs.read v).x }
  let v2 := { v1 with y := (rhs.read v1).y }
  let v3 := { v2 with z := (rhs.read v2).z }
  let v4 := { v3 with w := (rhs.read v3).w }
  v4

/-- Equality comparison, `operator==`. -/
def eq (S : Scalar T) (v rhs : Vec4T T) : Bool :=
  S.eq v.x rhs.x && S.eq v.y rhs.y && S.eq v.z rhs.z && S.eq v.w rhs.w

/-- Inequality comparison, `operator!=`. -/
def ne (S : Scalar T) (v rhs : Vec4T T) : Bool :=
  S.ne v.x rhs.x || S.ne v.y rhs.y || S.ne v.z rhs.z || S.ne v.w rhs.w

/-- Addition by vector, `operator+`. -/
def add (S : Scalar T) (v rhs : Vec4T T) : Vec4T T :=
  valueCtor (S.add v.x rhs.x) (S.add v.y rhs.y) (S.add v.z rhs.z) (S.add v.w rhs.w)

/-- Subtraction by vector, `operator-`. -/
def sub (S : Scalar T) (v rhs : Vec4T T) : Vec4T T :=
  valueCtor (S.sub v.x rhs.x) (S.sub v.y rhs.y) (S.sub v.z rhs.z) (S.sub v.w rhs.w)

/-- Multiply by vector, `operator*`. -/
def mul (S : Scalar T) (v rhs : Vec4T T) : Vec4T T :=
  valueCtor (S.mul v.x rhs.x) (S.mul v.y rhs.y) (S.mul v.z rhs.z) (S.mul v.w rhs.w)

/-- Divide by vector, `operator/`. -/
def div (S : Scalar T) (v rhs : Vec4T T) : Option (Vec4T T) := do
  let qx ← S.div v.x rhs.x
  let qy ← S.div v.y rhs.y
  let qz ← S.div v.z rhs.z
  let qw ← S.div v.w rhs.w
  pure (valueCtor qx qy qz qw)

/-- Multiply by scalar, `operator*(const T&)`. -/
def mulS (S : Scalar T) (v : Vec4T T) (s : T) : Vec4T T :=
  valueCtor (S.mul v.x s) (S.mul v.y s) (S.mul v.z s) (S.mul v.w s)

/-- Divide by scalar, `operator/(const T&)`. -/
def divS (S : Scalar T) (v : Vec4T T) (s : T) : Option (Vec4T T) := do
  let qx ← S.div v.x s
  let qy ← S.div v.y s
  let qz ← S.div v.z s
  let qw ← S.div v.w s
  pure (valueCtor qx qy qz qw)

/-- Add by scalar, `operator+(const T&)`. -/
def addS (S : Scalar T) (v : Vec4T T) (s : T) : Vec4T T :=
  valueCtor (S.add v.x s) (S.add v.y s) (S.add v.z s) (S.add v.w s)

/-- Subtract by scalar, `operator-(const T&)`. -/
def subS (S : Scalar T) (v : Vec4T T) (s : T) : Vec4T T :=
  valueCtor (S.sub v.x s) (S.sub v.y s) (S.sub v.z s) (S.sub v.w s)

/-- Negation operator, `operator-()`. -/
def neg (S : Scalar T) (v : Vec4T T) : Vec4T T :=
  valueCtor (S.neg v.x) (S.neg v.y) (S.neg v.z) (S.neg v.w)

/-- Left bit shift by a scalar, `operator<<`. -/
def shl (S : Scalar T) (v : Vec4T T) (s : T) : Option (Vec4T T) := do
  let sx ← S.shl v.x s
  let sy ← S.shl v.y s
  let sz ← S.shl v.z s
  let sw ← S.shl v.w s
  pure (valueCtor sx sy sz sw)

/-- Right bit shift by a scalar, `operator>>`. -/
def shr (S : Scalar T) (v : Vec4T T) (s : T) : Option (Vec4T T) := do
  let sx ← S.shr v.x s
  let sy ← S.shr v.y s
  let sz ← S.shr v.z s
  let sw ← S.shr v.w s
  pure (valueCtor sx sy sz sw)

/-- Addition in-place, `operator+=`. -/
def addAssign (S : Scalar T) (v : Vec4T T) (rhs : VRef (Vec4T T)) : Vec4T T :=
  let v1 := { v with x := S.add v.x (rhs.read v).x }
  let v2 := { v1 with y := S.add v1.y (rhs.read v1).y }
  let v3 := { v2 with z := S.add v2.z (rhs.read v2).z }
  let v4 := { v3 with w := S.add v3.w (rhs.read v3).w }
  v4

/-- Subtract in-place, `operator-=`. -/
def subAssign (S : Scalar T) (v : Vec4T T) (rhs : VRef (Vec4T T)) : Vec4T T :=
  let v1 := { v with x := S.sub v.x (rhs.read v).x }
  let v2 := { v1 with y := S.sub v1.y (rhs.read v1).y }
  let v3 := { v2 with z := S.sub v2.z (rhs.read v2).z }
  let v4 := { v3 with w := S.sub v3.w (rhs.read v3).w }
  v4

/-- Scalar multiply in-place, `operator*=`. -/
def mulAssign (S : Scalar T) (v : Vec4T T) (s : SRef T 4) : Vec4T T :=
  let v1 := { v with x := S.mul v.x (readS s v) }
  let v2 := { v1 with y := S.mul v1.y (readS s v1) }
  let v3 := { v2 with z := S.mul v2.z (readS s v2) }
  let v4 := { v3 with w := S.mul v3.w (readS s v3) }
  v4

/-- Scalar divide in-place, `operator/=`. -/
def divAssign (S : Scalar T) (v : Vec4T T) (s : SRef T 4) : Option (Vec4T T) := do
  let qx ← S.div v.x (readS s v)
  let v1 := { v with x := qx }
  let qy ← S.div v1.y (readS s v1)
  let v2 := { v1 with y := qy }
  let qz ← S.div v2.z (readS s v2)
  let v3 := { v2 with z := qz }
  let qw ← S.div v3.w (readS s v3)
  let v4 := { v3 with w := qw }
  pure v4

end Vec4T

/-! ## Auxiliary lemmas: when the operations with an undefined case have a result -/

section Defined

variable {T : Type}

theorem vec2_div_eq_some (S : Scalar T) (a b q : Vec2T T) :
    Vec2T.div S a b = some q ↔ S.div a.x b.x = some q.x ∧ S.div a.y b.y = some q.y := by
  obtain ⟨qx, qy⟩ := q
  unfold Vec2T.div
  cases hx : S.div a.x b.x <;> cases hy : S.div a.y b.y <;> simp [Vec2T.valueCtor]

theorem vec3_div_eq_some (S : Scalar T) (a b q : Vec3T T) :
    Vec3T.div S a b = some q ↔
      S.div a.x b.x = some q.x ∧ S.div a.y b.y = some q.y ∧ S.div a.z b.z = some q.z := by
  obtain ⟨qx, qy, qz⟩ := q
  unfold Vec3T.div
  cases hx : S.div a.x b.x <;> cases hy : S.div a.y b.y <;> cases hz : S.div a.z b.z <;>
    simp [Vec3T.valueCtor]

theorem vec4_div_eq_some (S : Scalar T) (a b q : Vec4T T) :
    Vec4T.div S a b = some q ↔
      S.div a.x b.x = some q.x ∧ S.div a.y b.y = some q.y ∧ S.div a.z b.z = some q.z ∧
        S.div a.w b.w = some q.w := by
  obtain ⟨qx, qy, qz, qw⟩ := q
  unfold Vec4T.div
  cases hx : S.div a.x b.x <;> cases hy : S.div a.y b.y <;> cases hz : S.div a.z b.z <;>
    cases hw : S.div a.w b.w <;> simp [Vec4T.valueCtor]

end Defined

/-! ## Component-wise arithmetic -/

/-- C1. For every element type and both operands arbitrary, each component of `a + b`, `a - b`
and `a * b` on `Vec2T`, `Vec3T` and `Vec4T` is the scalar operator applied to the two
corresponding components, and `a / b` is the vector `q` exactly when each scalar quotient of
corresponding components is the corresponding component of `q`; on `int`,
`Vec2(1,2) + Vec2(3,4)` is `Vec2(4,6)`. -/
theorem arithmetic_componentwise {T : Type} (S : Scalar T) :
    (∀ a b : Vec2T T,
      ((Vec2T.add S a b).x = S.add a.x b.x ∧ (Vec2T.add S a b).y = S.add a.y b.y) ∧
      ((Vec2T.sub S a b).x = S.sub a.x b.x ∧ (Vec2T.sub S a b).y = S.sub a.y b.y) ∧
      ((Vec2T.mul S a b).x = S.mul a.x b.x ∧ (Vec2T.mul S a b).y = S.mul a.y b.y) ∧
      (∀ q, Vec2T.div S a b = some q ↔
        S.div a.x b.x = some q.x ∧ S.div a.y b.y = some q.y)) ∧
    (∀ a b : Vec3T T,
      ((Vec3T.add S a b).x = S.add a.x b.x ∧ (Vec3T.add S a b).y = S.add a.y b.y ∧
        (Vec3T.add S a b).z = S.add a.z b.z) ∧
      ((Vec3T.sub S a b).x = S.sub a.x b.x ∧ (Vec3T.sub S a b).y = S.sub a.y b.y ∧
        (Vec3T.sub S a b).z = S.sub a.z b.z) ∧
      ((Vec3T.mul S a b).x = S.mul a.x b.x ∧ (Vec3T.mul S a b).y = S.mul a.y b.y ∧
        (Vec3T.mul S a b).z = S.mul a.z b.z) ∧
      (∀ q, Vec3T.div S a b = some q ↔
        S.div a.x b.x = some q.x ∧ S.div a.y b.y = some q.y ∧ S.div a.z b.z = some q.z)) ∧
    (∀ a b : Vec4T T,
      ((Vec4T.add S a b).x = S.add a.x b.x ∧ (Vec4T.add S a b).y = S.add a.y b.y ∧
        (Vec4T.add S a b).z = S.add a.z b.z ∧ (Vec4T.add S a b).w = S.add a.w b.w) ∧
      ((Vec4T.sub S a b).x = S.sub a.x b.x ∧ (Vec4T.sub S a b).y = S.sub a.y b.y ∧
        (Vec4T.sub S a b).z = S.sub a.z b.z ∧ (Vec4T.sub S a b).w = S.sub a.w b.w) ∧
      ((Vec4T.mul S a b).x = S.mul a.x b.x ∧ (Vec4T.mul S a b).y = S.mul a.y b.y ∧
        (Vec4T.mul S a b).z = S.mul a.z b.z ∧ (Vec4T.mul S a b).w = S.mul a.w b.w) ∧
      (∀ q, Vec4T.div S a b = some q ↔
        S.div a.x b.x = some q.x ∧ S.div a.y b.y = some q.y ∧ S.div a.z b.z = some q.z ∧
          S.div a.w b.w = some q.w)) ∧
    Vec2T.add cInt.scalar ⟨1, 2⟩ ⟨3, 4⟩ = ⟨4, 6⟩ := by
  refine ⟨fun a b => ⟨⟨rfl, rfl⟩, ⟨rfl, rfl⟩, ⟨rfl, rfl⟩, vec2_div_eq_some S a b⟩,
    fun a b => ⟨⟨rfl, rfl, rfl⟩, ⟨rfl, rfl, rfl⟩, ⟨rfl, rfl, rfl⟩, vec3_div_eq_some S a b⟩,
    fun a b => ⟨⟨rfl, rfl, rfl, rfl⟩, ⟨rfl, rfl, rfl, rfl⟩, ⟨rfl, rfl, rfl, rfl⟩,
      vec4_div_eq_some S a b⟩, by decide⟩

/-! ## In-place operators -/

/-- C2, as stated, fails on `int`: with `v = Vec3(2,3,4)`, the call `v *= v.x` leaves
`(4,12,16)` in `v`, because the operand is a reference that is read again after `x` has been
overwritten, whereas `v * v.x` is `(4,6,8)`. -/
theorem inplace_scalar_alias_differs :
    Vec3T.mulAssign cInt.scalar ⟨2, 3, 4⟩ (.comp 0) = ⟨4, 12, 16⟩ ∧
    Vec3T.mulS cInt.scalar ⟨2, 3, 4⟩ (Vec3T.readS (.comp 0) ⟨2, 3, 4⟩) = ⟨4, 6, 8⟩ ∧
    Vec3T.mulAssign cInt.scalar ⟨2, 3, 4⟩ (.comp 0) ≠
      Vec3T.mulS cInt.scalar ⟨2, 3, 4⟩ (Vec3T.readS (.comp 0) ⟨2, 3, 4⟩) := by
  decide

/-- C2, amended. For every element type, the state of `v` after an in-place operator equals the
value of the matching non-in-place operator on the old `v`: for `+=` and `-=` with any vector
operand, the receiver itself included, and for scalar `*=`, `/=` (and `+=` on `Vec3T`) with a
scalar operand that lies outside `v` or is the last component of `v`; `/=` has a result exactly
when `/` has one. On `int`, `v *= 2` on `Vec3(1,2,3)` leaves `Vec3(2,4,6)`. -/
theorem inplace_eq_operator {T : Type} (S : Scalar T) :
    (∀ (v : Vec2T T) (rhs : VRef (Vec2T T)),
      Vec2T.addAssign S v rhs = Vec2T.add S v (rhs.read v) ∧
      Vec2T.subAssign S v rhs = Vec2T.sub S v (rhs.read v)) ∧
    (∀ (v : Vec2T T) (t : T),
      Vec2T.mulAssign S v (.ext t) = Vec2T.mulS S v t ∧
      Vec2T.divAssign S v (.ext t) = Vec2T.divS S v t) ∧
    (∀ v : Vec2T T,
      Vec2T.mulAssign S v (.comp 1) = Vec2T.mulS S v v.y ∧
      Vec2T.divAssign S v (.comp 1) = Vec2T.divS S v v.y) ∧
    (∀ (v : Vec3T T) (rhs : VRef (Vec3T T)),
      Vec3T.addAssign S v rhs = Vec3T.add S v (rhs.read v) ∧
      Vec3T.subAssign S v rhs = Vec3T.sub S v (rhs.read v)) ∧
    (∀ (v : Vec3T T) (t : T),
      Vec3T.mulAssign S v (.ext t) = Vec3T.mulS S v t ∧
      Vec3T.addAssignS S v (.ext t) = Vec3T.addS S v t ∧
      Vec3T.divAssign S v (.ext t) = Vec3T.divS S v t) ∧
    (∀ v : Vec3T T,
      Vec3T.mulAssign S v (.comp 2) = Vec3T.mulS S v v.z ∧
      Vec3T.addAssignS S v (.comp 2) = Vec3T.addS S v v.z ∧
      Vec3T.divAssign S v (.comp 2) = Vec3T.divS S v v.z) ∧
    (∀ (v : Vec4T T) (rhs : VRef (Vec4T T)),
      Vec4T.addAssign S v rhs = Vec4T.add S v (rhs.read v) ∧
      Vec4T.subAssign S v rhs = Vec4T.sub S v (rhs.read v)) ∧
    (∀ (v : Vec4T T) (t : T),
      Vec4T.mulAssign S v (.ext t) = Vec4T.mulS S v t ∧
      Vec4T.divAssign S v (.ext t) = Vec4T.divS S v t) ∧
    (∀ v : Vec4T T,
      Vec4T.mulAssign S v (.comp 3) = Vec4T.mulS S v v.w ∧
      Vec4T.divAssign S v (.comp 3) = Vec4T.divS S v v.w) ∧
    Vec3T.mulAssign cInt.scalar ⟨1, 2, 3⟩ (.ext 2) = ⟨2, 4, 6⟩ ∧
    Vec4T.addAssign cUChar.scalar ⟨200, 1, 2, 3⟩ (.ext ⟨100, 1, 1, 1⟩) =
      Vec4T.add cUChar.scalar ⟨200, 1, 2, 3⟩ ⟨100, 1, 1, 1⟩ := by
  refine ⟨?_, ?_, ?_, ?_, ?_, ?_, ?_, ?_, ?_, by decide, by decide⟩
  · intro v rhs; cases rhs <;> exact ⟨rfl, rfl⟩
  · intro v t; exact ⟨rfl, rfl⟩
  · intro v; exact ⟨rfl, rfl⟩
  · intro v rhs; cases rhs <;> exact ⟨rfl, rfl⟩
  · intro v t; exact ⟨rfl, rfl, rfl⟩
  · intro v; exact ⟨rfl, rfl, rfl⟩
  · intro v rhs; cases rhs <;> exact ⟨rfl, rfl⟩
  · intro v t; exact ⟨rfl, rfl⟩
  · intro v; exact ⟨rfl, rfl⟩

/-! ## Equality -/

/-- On `float`, `!=` is the negation of `==`, also at a NaN. -/
theorem F32.ne_eq_not_eq (a b : F32) : F32.ne a b = !F32.eq a b := by
  unfold F32.ne F32.eq
  cases a.isNaN <;> cases b.isNaN <;> simp

/-- C4. On `Vec3T` and `Vec4T` the colour names read the same components as the positional
names (`r` is `x`, `g` is `y`, `b` is `z`, and `a` is `w` on `Vec4T`); a store through either
name of a pair is read back through both names, and changes no other component. -/
theorem colour_names_alias_positional {T : Type} :
    (∀ (v : Vec3T T) (t : T),
      (v.r = v.x ∧ v.g = v.y ∧ v.b = v.z) ∧
      ((v.setR t).x = t ∧ (v.setR t).r = t ∧ (v.setR t).y = v.y ∧ (v.setR t).z = v.z) ∧
      ((v.setX t).r = t ∧ (v.setX t).x = t ∧ (v.setX t).g = v.g ∧ (v.setX t).b = v.b) ∧
      ((v.setG t).y = t ∧ (v.setG t).g = t ∧ (v.setG t).x = v.x ∧ (v.setG t).z = v.z) ∧
      ((v.setY t).g = t ∧ (v.setY t).y = t ∧ (v.setY t).r = v.r ∧ (v.setY t).b = v.b) ∧
      ((v.setB t).z = t ∧ (v.setB t).b = t ∧ (v.setB t).x = v.x ∧ (v.setB t).y = v.y) ∧
      ((v.setZ t).b = t ∧ (v.setZ t).z = t ∧ (v.setZ t).r = v.r ∧ (v.setZ t).g = v.g)) ∧
    (∀ (v : Vec4T T) (t : T),
      (v.r = v.x ∧ v.g = v.y ∧ v.b = v.z ∧ v.a = v.w) ∧
      ((v.setR t).x = t ∧ (v.setR t).r = t ∧
        (v.setR t).y = v.y ∧ (v.setR t).z = v.z ∧ (v.setR t).w = v.w) ∧
      ((v.setX t).r = t ∧ (v.setX t).x = t ∧
        (v.setX t).g = v.g ∧ (v.setX t).b = v.b ∧ (v.setX t).a = v.a) ∧
      ((v.setG t).y = t ∧ (v.setG t).g = t ∧
        (v.setG t).x = v.x ∧ (v.setG t).z = v.z ∧ (v.setG t).w = v.w) ∧
      ((v.setY t).g = t ∧ (v.setY t).y = t ∧
        (v.setY t).r = v.r ∧ (v.setY t).b = v.b ∧ (v.setY t).a = v.a) ∧
      ((v.setB t).z = t ∧ (v.setB t).b = t ∧
        (v.setB t).x = v.x ∧ (v.setB t).y = v.y ∧ (v.setB t).w = v.w) ∧
      ((v.setZ t).b = t ∧ (v.setZ t).z = t ∧
        (v.setZ t).r = v.r ∧ (v.setZ t).g = v.g ∧ (v.setZ t).a = v.a) ∧
      ((v.setA t).w = t ∧ (v.setA t).a = t ∧
        (v.setA t).x = v.x ∧ (v.setA t).y = v.y ∧ (v.setA t).z = v.z) ∧
      ((v.setW t).a = t ∧ (v.setW t).w = t ∧
        (v.setW t).r = v.r ∧ (v.setW t).g = v.g ∧ (v.setW t).b = v.b)) := by
  refine ⟨fun v t => ?_, fun v t => ?_⟩
  · exact ⟨⟨rfl, rfl, rfl⟩, ⟨rfl, rfl, rfl, rfl⟩, ⟨rfl, rfl, rfl, rfl⟩, ⟨rfl, rfl, rfl, rfl⟩,
      ⟨rfl, rfl, rfl, rfl⟩, ⟨rfl, rfl, rfl, rfl⟩, ⟨rfl, rfl, rfl, rfl⟩⟩
  · exact ⟨⟨rfl, rfl, rfl, rfl⟩, ⟨rfl, rfl, rfl, rfl, rfl⟩, ⟨rfl, rfl, rfl, rfl, rfl⟩,
      ⟨rfl, rfl, rfl, rfl, rfl⟩, ⟨rfl, rfl, rfl, rfl, rfl⟩, ⟨rfl, rfl, rfl, rfl, rfl⟩,
      ⟨rfl, rfl, rfl, rfl, rfl⟩, ⟨rfl, rfl, rfl, rfl, rfl⟩, ⟨rfl, rfl, rfl, rfl, rfl⟩⟩

/-- C5. For every `Vec4T` state `v` the member `rgb` has the components `(v.x, v.y, v.z)` and
`rgb.rg` has `(v.x, v.y)`: after construction, after a store to any field of `v` and after the
operators of `v` (whose result seen through `rgb` is the `Vec3T` operator on the views), and
after a mutation through `rgb`, which leaves in `x, y, z` exactly the new state of the view;
`Vec4(1,2,3,4).rgb` is `Vec3(1,2,3)`. -/
theorem rgb_view_tracks_parent {T : Type} (S : Scalar T) :
    (∀ v : Vec4T T,
      (v.rgb.x = v.x ∧ v.rgb.y = v.y ∧ v.rgb.z = v.z) ∧
      (v.rgb.rg.x = v.x ∧ v.rgb.rg.y = v.y) ∧ v.setRgb v.rgb = v) ∧
    (∀ vx vy vz vw : T, (Vec4T.valueCtor vx vy vz vw).rgb = Vec3T.valueCtor vx vy vz) ∧
    (∀ (v : Vec4T T) (t : T),
      (v.setX t).rgb = v.rgb.setX t ∧ (v.setY t).rgb = v.rgb.setY t ∧
      (v.setZ t).rgb = v.rgb.setZ t ∧ (v.setW t).rgb = v.rgb ∧
      (v.setR t).rgb = v.rgb.setR t ∧ (v.setG t).rgb = v.rgb.setG t ∧
      (v.setB t).rgb = v.rgb.setB t ∧ (v.setA t).rgb = v.rgb) ∧
    (∀ (v w : Vec4T T) (t : T),
      (Vec4T.addAssign S v (.ext w)).rgb = Vec3T.addAssign S v.rgb (.ext w.rgb) ∧
      (Vec4T.subAssign S v (.ext w)).rgb = Vec3T.subAssign S v.rgb (.ext w.rgb) ∧
      (Vec4T.mulAssign S v (.ext t)).rgb = Vec3T.mulAssign S v.rgb (.ext t) ∧
      (Vec4T.assign v (.ext w)).rgb = Vec3T.assign v.rgb (.ext w.rgb) ∧
      (Vec4T.assignS v (.ext t)).rgb = Vec3T.singleCtor t) ∧
    (∀ (v : Vec4T T) (p : Vec3T T),
      (v.setRgb p).rgb = p ∧
      ((v.setRgb p).x = p.x ∧ (v.setRgb p).y = p.y ∧ (v.setRgb p).z = p.z) ∧
      (v.setRgb p).rgb.rg = p.rg) ∧
    (∀ (f : Vec3T T → Vec3T T) (v : Vec4T T),
      (Vec4T.viaRgb f v).rgb = f v.rgb ∧
      ((Vec4T.viaRgb f v).x = (f v.rgb).x ∧ (Vec4T.viaRgb f v).y = (f v.rgb).y ∧
        (Vec4T.viaRgb f v).z = (f v.rgb).z)) ∧
    (Vec4T.valueCtor (1 : Int) 2 3 4).rgb = Vec3T.valueCtor 1 2 3 := by
  refine ⟨fun v => ⟨⟨rfl, rfl, rfl⟩, ⟨rfl, rfl⟩, rfl⟩, fun _ _ _ _ => rfl,
    fun v t => ⟨rfl, rfl, rfl, rfl, rfl, rfl, rfl, rfl⟩,
    fun v w t => ⟨rfl, rfl, rfl, rfl, rfl⟩,
    fun v p => ⟨rfl, ⟨rfl, rfl, rfl⟩, rfl⟩,
    fun f v => ⟨rfl, ⟨rfl, rfl, rfl⟩⟩, rfl⟩

/-- C6. Every mutating `Vec3T` member function run on the member `rgb` of a `Vec4T` (assignment
from a `Vec3T`, vector `+=` and `-=`, scalar `*=`, `+=` and `/=`, with any operand) leaves the
fourth component `w`, read as `w` or as `a`, as it was, and leaves in `x, y, z` the result of
the `Vec3T` function on the old view; `/=` through the view has a result exactly when the
`Vec3T` function has one. On `Vec4(1,2,3,4)` the fourth component stays `4`. -/
theorem rgb_view_keeps_w {T : Type} (S : Scalar T) (v : Vec4T T) :
    (∀ rhs : VRef (Vec3T T),
      ((Vec4T.viaRgb (fun p => Vec3T.assign p rhs) v).w = v.w ∧
        (Vec4T.viaRgb (fun p => Vec3T.assign p rhs) v).a = v.a ∧
        (Vec4T.viaRgb (fun p => Vec3T.assign p rhs) v).rgb = Vec3T.assign v.rgb rhs) ∧
      ((Vec4T.viaRgb (fun p => Vec3T.addAssign S p rhs) v).w = v.w ∧
        (Vec4T.viaRgb (fun p => Vec3T.addAssign S p rhs) v).a = v.a ∧
        (Vec4T.viaRgb (fun p => Vec3T.addAssign S p rhs) v).rgb =
          Vec3T.addAssign S v.rgb rhs) ∧
      ((Vec4T.viaRgb (fun p => Vec3T.subAssign S p rhs) v).w = v.w ∧
        (Vec4T.viaRgb (fun p => Vec3T.subAssign S p rhs) v).a = v.a ∧
        (Vec4T.viaRgb (fun p => Vec3T.subAssign S p rhs) v).rgb =
          Vec3T.subAssign S v.rgb rhs)) ∧
    (∀ s : SRef T 3,
      ((Vec4T.viaRgb (fun p => Vec3T.mulAssign S p s) v).w = v.w ∧
        (Vec4T.viaRgb (fun p => Vec3T.mulAssign S p s) v).a = v.a ∧
        (Vec4T.viaRgb (fun p => Vec3T.mulAssign S p s) v).rgb = Vec3T.mulAssign S v.rgb s) ∧
      ((Vec4T.viaRgb (fun p => Vec3T.addAssignS S p s) v).w = v.w ∧
        (Vec4T.viaRgb (fun p => Vec3T.addAssignS S p s) v).a = v.a ∧
        (Vec4T.viaRgb (fun p => Vec3T.addAssignS S p s) v).rgb =
          Vec3T.addAssignS S v.rgb s) ∧
      (∀ u : Vec4T T, Vec4T.viaRgbOpt (fun p => Vec3T.divAssign S p s) v = some u ↔
        Vec3T.divAssign S v.rgb s = some u.rgb ∧ u.w = v.w)) ∧
    (Vec4T.viaRgb (fun p => Vec3T.mulAssign cInt.scalar p (.ext 2)) ⟨1, 2, 3, 4⟩ =
        ⟨2, 4, 6, 4⟩ ∧
      Vec4T.viaRgbOpt (fun p => Vec3T.divAssign cInt.scalar p (.ext 1)) ⟨1, 2, 3, 4⟩ =
        some ⟨1, 2, 3, 4⟩) := by
  refine ⟨fun rhs => ⟨⟨rfl, rfl, rfl⟩, ⟨rfl, rfl, rfl⟩, ⟨rfl, rfl, rfl⟩⟩,
    fun s => ⟨⟨rfl, rfl, rfl⟩, ⟨rfl, rfl, rfl⟩, ?_⟩, by decide⟩
  rintro ⟨ux, uy, uz, uw⟩
  show (Vec3T.divAssign S v.rgb s).map v.setRgb = some ⟨ux, uy, uz, uw⟩ ↔
    Vec3T.divAssign S v.rgb s = some ⟨ux, uy, uz⟩ ∧ uw = v.w
  cases Vec3T.divAssign S v.rgb s with
  | none => simp
  | some p =>
    obtain ⟨px, py, pz⟩ := p
    simp only [Option.map_some', Option.some.injEq, Vec4T.setRgb, Vec4T.mk.injEq,
      Vec3T.mk.injEq]
    constructor
    · rintro ⟨rfl, rfl, rfl, rfl⟩; exact ⟨⟨rfl, rfl, rfl⟩, rfl⟩
    · rintro ⟨⟨rfl, rfl, rfl⟩, rfl⟩; exact ⟨rfl, rfl, rfl, rfl⟩

/-! ## The raw buffer -/

/-- C7. Raw-buffer round trip on `Vec3T` and `Vec4T`: the array constructor applied to the
cast of `v` to `T*` gives `v` back; the cast has as many elements as the arity and holds `x`,
`y`, `z` (and `w`) in this order; and for an array `s` of exactly that many elements the array
constructor has a result, whose cast to `T*` is `s` again. -/
theorem raw_buffer_round_trip (T : Type) :
    (∀ v : Vec3T T,
      Vec3T.arrayCtor v.toBuf = some v ∧ v.toBuf.length = 3 ∧
      v.toBuf.get? 0 = some v.x ∧ v.toBuf.get? 1 = some v.y ∧ v.toBuf.get? 2 = some v.z) ∧
    (∀ s : List T, s.length = 3 →
      ∃ v, Vec3T.arrayCtor s = some v ∧ v.toBuf = s ∧ v.toBuf.length = 3 ∧
        s.get? 0 = some v.x ∧ s.get? 1 = some v.y ∧ s.get? 2 = some v.z) ∧
    (∀ v : Vec4T T,
      Vec4T.arrayCtor v.toBuf = some v ∧ v.toBuf.length = 4 ∧
      v.toBuf.get? 0 = some v.x ∧ v.toBuf.get? 1 = some v.y ∧ v.toBuf.get? 2 = some v.z ∧
      v.toBuf.get? 3 = some v.w) ∧
    (∀ s : List T, s.length = 4 →
      ∃ v, Vec4T.arrayCtor s = some v ∧ v.toBuf = s ∧ v.toBuf.length = 4 ∧
        s.get? 0 = some v.x ∧ s.get? 1 = some v.y ∧ s.get? 2 = some v.z ∧
        s.get? 3 = some v.w) := by
  refine ⟨fun v => ⟨rfl, rfl, rfl, rfl, rfl⟩, ?_, fun v => ⟨rfl, rfl, rfl, rfl, rfl, rfl⟩, ?_⟩
  · intro s hs
    match s, hs with
    | [a, b, c], _ => exact ⟨⟨a, b, c⟩, rfl, rfl, rfl, rfl, rfl, rfl⟩
  · intro s hs
    match s, hs with
    | [a, b, c, d], _ => exact ⟨⟨a, b, c, d⟩, rfl, rfl, rfl, rfl, rfl, rfl, rfl⟩

/-- C7 at the arrays `{10, 20, 30}` and `{10, 20, 30, 40}` of `int`. -/
theorem raw_buffer_round_trip_witness :
    (∃ v : Vec3T Int, Vec3T.arrayCtor [10, 20, 30] = some v ∧ v.toBuf = [10, 20, 30] ∧
      v.toBuf.length = 3 ∧ [(10 : Int), 20, 30].get? 0 = some v.x ∧
      [(10 : Int), 20, 30].get? 1 = some v.y ∧ [(10 : Int), 20, 30].get? 2 = some v.z) ∧
    (∃ v : Vec4T Int, Vec4T.arrayCtor [10, 20, 30, 40] = some v ∧
      v.toBuf = [10, 20, 30, 40] ∧ v.toBuf.length = 4 ∧
      [(10 : Int), 20, 30, 40].get? 0 = some v.x ∧ [(10 : Int), 20, 30, 40].get? 1 = some v.y ∧
      [(10 : Int), 20, 30, 40].get? 2 = some v.z ∧
      [(10 : Int), 20, 30, 40].get? 3 = some v.w) :=
  ⟨(raw_buffer_round_trip Int).2.1 [10, 20, 30] rfl,
    (raw_buffer_round_trip Int).2.2.2 [10, 20, 30, 40] rfl⟩

/-! ## Scalar operands -/

/-- C8. The scalar forms are broadcasts: `v * s` and `v / s` on `Vec2T`, `Vec3T` and `Vec4T`,
and `v + s` and `v - s` on `Vec3T` and `Vec4T`, are the vector-vector operator applied to `v`
and the single-value-constructed vector of `s`, for every element type (for `/`, the one has a
result exactly when the other has, and it is the same); on `int`, `Vec3(1,2,3) * 2` is
`Vec3(2,4,6)`. -/
theorem scalar_forms_broadcast {T : Type} (S : Scalar T) (s : T) :
    (∀ v : Vec2T T,
      Vec2T.mulS S v s = Vec2T.mul S v (Vec2T.singleCtor s) ∧
      Vec2T.divS S v s = Vec2T.div S v (Vec2T.singleCtor s)) ∧
    (∀ v : Vec3T T,
      Vec3T.mulS S v s = Vec3T.mul S v (Vec3T.singleCtor s) ∧
      Vec3T.divS S v s = Vec3T.div S v (Vec3T.singleCtor s) ∧
      Vec3T.addS S v s = Vec3T.add S v (Vec3T.singleCtor s) ∧
      Vec3T.subS S v s = Vec3T.sub S v (Vec3T.singleCtor s)) ∧
    (∀ v : Vec4T T,
      Vec4T.mulS S v s = Vec4T.mul S v (Vec4T.singleCtor s) ∧
      Vec4T.divS S v s = Vec4T.div S v (Vec4T.singleCtor s) ∧
      Vec4T.addS S v s = Vec4T.add S v (Vec4T.singleCtor s) ∧
      Vec4T.subS S v s = Vec4T.sub S v (Vec4T.singleCtor s)) ∧
    Vec3T.mulS cInt.scalar ⟨1, 2, 3⟩ 2 = ⟨2, 4, 6⟩ :=
  ⟨fun _ => ⟨rfl, rfl⟩, fun _ => ⟨rfl, rfl, rfl, rfl⟩, fun _ => ⟨rfl, rfl, rfl, rfl⟩,
    by decide⟩

/-! ## Negation and shifts -/

theorem IntTy.conv_signed_of_range (b : Nat) (hb : 0 < b) (n : Int)
    (h1 : -(2 : Int) ^ (b - 1) ≤ n) (h2 : n < 2 ^ (b - 1)) :
    (IntTy.mk b true).conv n = n := by
  have hp : (2 : Int) ^ b = 2 * 2 ^ (b - 1) := by
    obtain ⟨k, rfl⟩ : ∃ k, b = k + 1 := ⟨b - 1, by omega⟩
    simp [pow_succ]; ring
  simp only [IntTy.conv, if_true]
  rw [Int.emod_eq_of_lt (by linarith) (by linarith)]
  ring

/-- Negation in a signed type is the negation of the integers, the least value apart. -/
theorem IntTy.neg_of_range (ty : IntTy) (hs : ty.signed = true) (hb : 0 < ty.bits) (c : Int)
    (h1 : -(2 : Int) ^ (ty.bits - 1) < c) (h2 : c < 2 ^ (ty.bits - 1)) :
    ty.scalar.neg c = -c := by
  obtain ⟨b, sg⟩ := ty
  simp only at hs hb h1 h2
  subst hs
  have hprom : (IntTy.mk b true).prom.conv (-c) = -c := by
    unfold IntTy.prom
    by_cases hlt : b < 32
    · simp only [hlt, if_true]
      have hle : (2 : Int) ^ (b - 1) ≤ 2 ^ (32 - 1) :=
        pow_le_pow_right₀ (by norm_num) (by omega)
      exact IntTy.conv_signed_of_range 32 (by norm_num) (-c) (by linarith) (by linarith)
    · simp only [hlt, if_false]
      exact IntTy.conv_signed_of_range b hb (-c) (by linarith) (by linarith)
  show (IntTy.mk b true).conv ((IntTy.mk b true).prom.conv (-c)) = -c
  rw [hprom]
  exact IntTy.conv_signed_of_range b hb (-c) (by linarith) (by linarith)

/-- C9. Unary negation on `Vec4T` returns the vector of the negated components, for every
element type; over a signed integer type, when no component is the least value of the type, the
components are the negations in the integers. The operator is a `const` member: it is a function
of the value of `v` and gives `v` no new state. `-Vec4(1,-2,3,-4)` is `Vec4(-1,2,-3,4)`. -/
theorem neg_componentwise :
    (∀ (T : Type) (S : Scalar T) (u : Vec4T T),
      Vec4T.neg S u = Vec4T.valueCtor (S.neg u.x) (S.neg u.y) (S.neg u.z) (S.neg u.w) ∧
      (Vec4T.neg S u).x = S.neg u.x ∧ (Vec4T.neg S u).y = S.neg u.y ∧
      (Vec4T.neg S u).z = S.neg u.z ∧ (Vec4T.neg S u).w = S.neg u.w) ∧
    (∀ (ty : IntTy) (v : Vec4T Int), ty.signed = true → 0 < ty.bits →
      (∀ c ∈ v.toBuf, -(2 : Int) ^ (ty.bits - 1) < c ∧ c < 2 ^ (ty.bits - 1)) →
      Vec4T.neg ty.scalar v = Vec4T.valueCtor (-v.x) (-v.y) (-v.z) (-v.w) ∧
      Vec4T.eq ty.scalar (Vec4T.neg ty.scalar v)
        (Vec4T.valueCtor (-v.x) (-v.y) (-v.z) (-v.w)) = true) ∧
    Vec4T.neg cInt.scalar ⟨1, -2, 3, -4⟩ = ⟨-1, 2, -3, 4⟩ := by
  refine ⟨fun T S u => ⟨rfl, rfl, rfl, rfl, rfl⟩, ?_, by decide⟩
  intro ty v hs hb hv
  have hx := hv v.x (by simp [Vec4T.toBuf])
  have hy := hv v.y (by simp [Vec4T.toBuf])
  have hz := hv v.z (by simp [Vec4T.toBuf])
  have hw := hv v.w (by simp [Vec4T.toBuf])
  have key : Vec4T.neg ty.scalar v = Vec4T.valueCtor (-v.x) (-v.y) (-v.z) (-v.w) := by
    unfold Vec4T.neg
    rw [IntTy.neg_of_range ty hs hb v.x hx.1 hx.2, IntTy.neg_of_range ty hs hb v.y hy.1 hy.2,
      IntTy.neg_of_range ty hs hb v.z hz.1 hz.2, IntTy.neg_of_range ty hs hb v.w hw.1 hw.2]
  refine ⟨key, ?_⟩
  rw [key]
  simp [Vec4T.eq, IntTy.scalar]

/-- C9 at `int` and `Vec4(1,-2,3,-4)`. -/
theorem neg_componentwise_witness :
    Vec4T.neg cInt.scalar ⟨1, -2, 3, -4⟩ = Vec4T.valueCtor (-1) (- -2) (-3) (- -4) ∧
    Vec4T.eq cInt.scalar (Vec4T.neg cInt.scalar ⟨1, -2, 3, -4⟩)
      (Vec4T.valueCtor (-1) (- -2) (-3) (- -4)) = true :=
  neg_componentwise.2.1 cInt ⟨1, -2, 3, -4⟩ rfl (by decide) (by decide)

/-- C10. On `Vec4T`, `v << s` is the vector `r` exactly when each of the four scalar shifts of a
component of `v` by the one amount `s` is the corresponding component of `r`, and likewise for
`v >> s`, for every element type; over an integer type, for a shift amount from `0` to below
the width of the promoted type, both have a result, with components the component times `2 ^ s`
converted to the type, and the component divided by `2 ^ s` rounded down.
`Vec4i(1,2,3,4) << 1` is `Vec4i(2,4,6,8)`. -/
theorem shift_componentwise :
    (∀ (T : Type) (S : Scalar T) (v : Vec4T T) (s : T) (r : Vec4T T),
      (Vec4T.shl S v s = some r ↔
        S.shl v.x s = some r.x ∧ S.shl v.y s = some r.y ∧ S.shl v.z s = some r.z ∧
          S.shl v.w s = some r.w) ∧
      (Vec4T.shr S v s = some r ↔
        S.shr v.x s = some r.x ∧ S.shr v.y s = some r.y ∧ S.shr v.z s = some r.z ∧
          S.shr v.w s = some r.w)) ∧
    (∀ (ty : IntTy) (v : Vec4T Int) (s : Int), 0 ≤ s → s < ty.prom.bits →
      Vec4T.shl ty.scalar v s = some (Vec4T.valueCtor
        (ty.conv (ty.prom.conv (v.x * 2 ^ s.toNat))) (ty.conv (ty.prom.conv (v.y * 2 ^ s.toNat)))
        (ty.conv (ty.prom.conv (v.z * 2 ^ s.toNat)))
        (ty.conv (ty.prom.conv (v.w * 2 ^ s.toNat)))) ∧
      Vec4T.shr ty.scalar v s = some (Vec4T.valueCtor
        (ty.conv (v.x / 2 ^ s.toNat)) (ty.conv (v.y / 2 ^ s.toNat))
        (ty.conv (v.z / 2 ^ s.toNat)) (ty.conv (v.w / 2 ^ s.toNat)))) ∧
    Vec4T.shl cInt.scalar ⟨1, 2, 3, 4⟩ 1 = some ⟨2, 4, 6, 8⟩ ∧
    Vec4T.shr cInt.scalar ⟨2, 4, 6, 9⟩ 1 = some ⟨1, 2, 3, 4⟩ := by
  refine ⟨?_, ?_, by decide, by decide⟩
  · rintro T S v s ⟨rx, ry, rz, rw⟩
    constructor
    · unfold Vec4T.shl
      cases S.shl v.x s <;> cases S.shl v.y s <;> cases S.shl v.z s <;> cases S.shl v.w s <;>
        simp [Vec4T.valueCtor]
    · unfold Vec4T.shr
      cases S.shr v.x s <;> cases S.shr v.y s <;> cases S.shr v.z s <;> cases S.shr v.w s <;>
        simp [Vec4T.valueCtor]
  · intro ty v s h0 h1
    have h : 0 ≤ s ∧ s < (ty.prom.bits : Int) := ⟨h0, h1⟩
    constructor
    · simp [Vec4T.shl, IntTy.scalar, h]
    · simp [Vec4T.shr, IntTy.scalar, h]

/-- C10 at `int`, `Vec4i(1,2,3,4)` and the shift amount `1`. -/
theorem shift_componentwise_witness :
    Vec4T.shl cInt.scalar ⟨1, 2, 3, 4⟩ 1 = some (Vec4T.valueCtor
      (cInt.conv (cInt.prom.conv (1 * 2 ^ (1 : Int).toNat)))
      (cInt.conv (cInt.prom.conv (2 * 2 ^ (1 : Int).toNat)))
      (cInt.conv (cInt.prom.conv (3 * 2 ^ (1 : Int).toNat)))
      (cInt.conv (cInt.prom.conv (4 * 2 ^ (1 : Int).toNat)))) ∧
    Vec4T.shr cInt.scalar ⟨1, 2, 3, 4⟩ 1 = some (Vec4T.valueCtor
      (cInt.conv (1 / 2 ^ (1 : Int).toNat)) (cInt.conv (2 / 2 ^ (1 : Int).toNat))
      (cInt.conv (3 / 2 ^ (1 : Int).toNat)) (cInt.conv (4 / 2 ^ (1 : Int).toNat))) :=
  shift_componentwise.2.1 cInt ⟨1, 2, 3, 4⟩ 1 (by decide) (by decide)

/-! ## Arithmetic modulo the width -/

/-- A converted value is congruent to the original modulo `2 ^ bits`. -/
theorem IntTy.conv_modEq (ty : IntTy) (n : Int) : ty.conv n ≡ n [ZMOD 2 ^ ty.bits] := by
  unfold IntTy.conv
  split
  · have h : (n + 2 ^ (ty.bits - 1)) % 2 ^ ty.bits ≡ n + 2 ^ (ty.bits - 1) [ZMOD 2 ^ ty.bits] :=
      Int.mod_modEq _ _
    simpa using h.sub_right (2 ^ (ty.bits - 1))
  · exact Int.mod_modEq _ _

/-- Conversion depends on the residue modulo `2 ^ bits` only. -/
theorem IntTy.conv_congr (ty : IntTy) {n m : Int} (h : n ≡ m [ZMOD 2 ^ ty.bits]) :
    ty.conv n = ty.conv m := by
  unfold IntTy.conv
  split
  · have h2 : n + 2 ^ (ty.bits - 1) ≡ m + 2 ^ (ty.bits - 1) [ZMOD 2 ^ ty.bits] :=
      h.add_right _
    rw [show (n + 2 ^ (ty.bits - 1)) % 2 ^ ty.bits = (m + 2 ^ (ty.bits - 1)) % 2 ^ ty.bits
      from h2]
  · exact h

/-- The promoted type is at least as wide as the type. -/
theorem IntTy.bits_le_prom (ty : IntTy) : ty.bits ≤ ty.prom.bits := by
  unfold IntTy.prom
  split
  · simp only; omega
  · exact le_rfl

/-- Conversion to the promoted type keeps the residue modulo `2 ^ bits` of the type. -/
theorem IntTy.prom_conv_modEq (ty : IntTy) (n : Int) :
    ty.prom.conv n ≡ n [ZMOD 2 ^ ty.bits] :=
  (ty.prom.conv_modEq n).of_dvd (pow_dvd_pow 2 ty.bits_le_prom)

/-- Promotion, then conversion back, depends on the residue modulo `2 ^ bits` only. -/
theorem IntTy.wrap_congr (ty : IntTy) {n m : Int} (h : n ≡ m [ZMOD 2 ^ ty.bits]) :
    ty.conv (ty.prom.conv n) = ty.conv (ty.prom.conv m) :=
  ty.conv_congr (((ty.prom_conv_modEq n).trans h).trans (ty.prom_conv_modEq m).symm)

/-- Promotion, then conversion back, keeps the residue modulo `2 ^ bits`. -/
theorem IntTy.wrap_modEq (ty : IntTy) (n : Int) :
    ty.conv (ty.prom.conv n) ≡ n [ZMOD 2 ^ ty.bits] :=
  (ty.conv_modEq _).trans (ty.prom_conv_modEq n)

/-- Promotion, then conversion back, returns a value of the type unchanged. -/
theorem IntTy.wrap_of_inRange (ty : IntTy) {n : Int} (h : ty.inRange n) :
    ty.conv (ty.prom.conv n) = n := by
  have h2 : ty.conv (ty.prom.conv n) = ty.conv n := ty.conv_congr (ty.prom_conv_modEq n)
  rw [h2]; exact h

theorem IntTy.scalar_add_comm (ty : IntTy) (a b : Int) :
    ty.scalar.add a b = ty.scalar.add b a := by
  show ty.conv (ty.prom.conv (a + b)) = ty.conv (ty.prom.conv (b + a))
  rw [add_comm]

theorem IntTy.scalar_mul_comm (ty : IntTy) (a b : Int) :
    ty.scalar.mul a b = ty.scalar.mul b a := by
  show ty.conv (ty.prom.conv (a * b)) = ty.conv (ty.prom.conv (b * a))
  rw [mul_comm]

theorem IntTy.scalar_add_assoc (ty : IntTy) (a b c : Int) :
    ty.scalar.add (ty.scalar.add a b) c = ty.scalar.add a (ty.scalar.add b c) := by
  show ty.conv (ty.prom.conv (ty.conv (ty.prom.conv (a + b)) + c)) =
    ty.conv (ty.prom.conv (a + ty.conv (ty.prom.conv (b + c))))
  apply ty.wrap_congr
  have h1 := (ty.wrap_modEq (a + b)).add_right c
  have h2 := (ty.wrap_modEq (b + c)).add_left a
  rw [add_assoc] at h1
  exact h1.trans h2.symm

theorem IntTy.scalar_mul_assoc (ty : IntTy) (a b c : Int) :
    ty.scalar.mul (ty.scalar.mul a b) c = ty.scalar.mul a (ty.scalar.mul b c) := by
  show ty.conv (ty.prom.conv (ty.conv (ty.prom.conv (a * b)) * c)) =
    ty.conv (ty.prom.conv (a * ty.conv (ty.prom.conv (b * c))))
  apply ty.wrap_congr
  have h1 := (ty.wrap_modEq (a * b)).mul_right c
  have h2 := (ty.wrap_modEq (b * c)).mul_left a
  rw [mul_assoc] at h1
  exact h1.trans h2.symm

/-- C11. Over every integer element type, vector addition and vector multiplication on `Vec2T`,
`Vec3T` and `Vec4T` are commutative and associative, for all operands, the wrapping ones
included. -/
theorem add_mul_comm_assoc (ty : IntTy) :
    (∀ a b c : Vec2T Int,
      Vec2T.add ty.scalar a b = Vec2T.add ty.scalar b a ∧
      Vec2T.add ty.scalar (Vec2T.add ty.scalar a b) c =
        Vec2T.add ty.scalar a (Vec2T.add ty.scalar b c) ∧
      Vec2T.mul ty.scalar a b = Vec2T.mul ty.scalar b a ∧
      Vec2T.mul ty.scalar (Vec2T.mul ty.scalar a b) c =
        Vec2T.mul ty.scalar a (Vec2T.mul ty.scalar b c)) ∧
    (∀ a b c : Vec3T Int,
      Vec3T.add ty.scalar a b = Vec3T.add ty.scalar b a ∧
      Vec3T.add ty.scalar (Vec3T.add ty.scalar a b) c =
        Vec3T.add ty.scalar a (Vec3T.add ty.scalar b c) ∧
      Vec3T.mul ty.scalar a b = Vec3T.mul ty.scalar b a ∧
      Vec3T.mul ty.scalar (Vec3T.mul ty.scalar a b) c =
        Vec3T.mul ty.scalar a (Vec3T.mul ty.scalar b c)) ∧
    (∀ a b c : Vec4T Int,
      Vec4T.add ty.scalar a b = Vec4T.add ty.scalar b a ∧
      Vec4T.add ty.scalar (Vec4T.add ty.scalar a b) c =
        Vec4T.add ty.scalar a (Vec4T.add ty.scalar b c) ∧
      Vec4T.mul ty.scalar a b = Vec4T.mul ty.scalar b a ∧
      Vec4T.mul ty.scalar (Vec4T.mul ty.scalar a b) c =
        Vec4T.mul ty.scalar a (Vec4T.mul ty.scalar b c)) ∧
    Vec4T.add cUChar.scalar (Vec4T.add cUChar.scalar ⟨200, 1, 2, 3⟩ ⟨100, 1, 1, 1⟩)
        ⟨7, 7, 7, 7⟩ =
      Vec4T.add cUChar.scalar ⟨200, 1, 2, 3⟩
        (Vec4T.add cUChar.scalar ⟨100, 1, 1, 1⟩ ⟨7, 7, 7, 7⟩) := by
  refine ⟨fun a b c => ⟨?_, ?_, ?_, ?_⟩, fun a b c => ⟨?_, ?_, ?_, ?_⟩,
    fun a b c => ⟨?_, ?_, ?_, ?_⟩, by decide⟩
  · simp only [Vec2T.add, Vec2T.valueCtor, Vec2T.mk.injEq]
    exact ⟨ty.scalar_add_comm _ _, ty.scalar_add_comm _ _⟩
  · simp only [Vec2T.add, Vec2T.valueCtor, Vec2T.mk.injEq]
    exact ⟨ty.scalar_add_assoc _ _ _, ty.scalar_add_assoc _ _ _⟩
  · simp only [Vec2T.mul, Vec2T.valueCtor, Vec2T.mk.injEq]
    exact ⟨ty.scalar_mul_comm _ _, ty.scalar_mul_comm _ _⟩
  · simp only [Vec2T.mul, Vec2T.valueCtor, Vec2T.mk.injEq]
    exact ⟨ty.scalar_mul_assoc _ _ _, ty.scalar_mul_assoc _ _ _⟩
  · simp only [Vec3T.add, Vec3T.valueCtor, Vec3T.mk.injEq]
    exact ⟨ty.scalar_add_comm _ _, ty.scalar_add_comm _ _, ty.scalar_add_comm _ _⟩
  · simp only [Vec3T.add, Vec3T.valueCtor, Vec3T.mk.injEq]
    exact ⟨ty.scalar_add_assoc _ _ _, ty.scalar_add_assoc _ _ _, ty.scalar_add_assoc _ _ _⟩
  · simp only [Vec3T.mul, Vec3T.valueCtor, Vec3T.mk.injEq]
    exact ⟨ty.scalar_mul_comm _ _, ty.scalar_mul_comm _ _, ty.scalar_mul_comm _ _⟩
  · simp only [Vec3T.mul, Vec3T.valueCtor, Vec3T.mk.injEq]
    exact ⟨ty.scalar_mul_assoc _ _ _, ty.scalar_mul_assoc _ _ _, ty.scalar_mul_assoc _ _ _⟩
  · simp only [Vec4T.add, Vec4T.valueCtor, Vec4T.mk.injEq]
    exact ⟨ty.scalar_add_comm _ _, ty.scalar_add_comm _ _, ty.scalar_add_comm _ _,
      ty.scalar_add_comm _ _⟩
  · simp only [Vec4T.add, Vec4T.valueCtor, Vec4T.mk.injEq]
    exact ⟨ty.scalar_add_assoc _ _ _, ty.scalar_add_assoc _ _ _, ty.scalar_add_assoc _ _ _,
      ty.scalar_add_assoc _ _ _⟩
  · simp only [Vec4T.mul, Vec4T.valueCtor, Vec4T.mk.injEq]
    exact ⟨ty.scalar_mul_comm _ _, ty.scalar_mul_comm _ _, ty.scalar_mul_comm _ _,
      ty.scalar_mul_comm _ _⟩
  · simp only [Vec4T.mul, Vec4T.valueCtor, Vec4T.mk.injEq]
    exact ⟨ty.scalar_mul_assoc _ _ _, ty.scalar_mul_assoc _ _ _, ty.scalar_mul_assoc _ _ _,
      ty.scalar_mul_assoc _ _ _⟩

/-- Arithmetic of `unsigned char`: promotion to `int`, then conversion back, is reduction
modulo 256. -/
theorem cUChar_wrap (n : Int) : cUChar.conv (cUChar.prom.conv n) = n % 256 := by
  rw [cUChar.conv_congr (cUChar.prom_conv_modEq n)]
  simp [IntTy.conv, cUChar]

/-- C12. On `Vec3T<unsigned char>` and `Vec4T<unsigned char>`, for all operands, each component
of `a + b`, `a - b` and `a * b` is the exact integer result on the two components reduced
modulo 256; so `200 + 100` gives `44` (not the saturated `255`) and `0 - 1` gives `255`
(not the clamped `0`). -/
theorem uchar_arith_mod_256 :
    (∀ a b : Vec3T Int,
      Vec3T.add cUChar.scalar a b =
        ⟨(a.x + b.x) % 256, (a.y + b.y) % 256, (a.z + b.z) % 256⟩ ∧
      Vec3T.sub cUChar.scalar a b =
        ⟨(a.x - b.x) % 256, (a.y - b.y) % 256, (a.z - b.z) % 256⟩ ∧
      Vec3T.mul cUChar.scalar a b =
        ⟨(a.x * b.x) % 256, (a.y * b.y) % 256, (a.z * b.z) % 256⟩) ∧
    (∀ a b : Vec4T Int,
      Vec4T.add cUChar.scalar a b =
        ⟨(a.x + b.x) % 256, (a.y + b.y) % 256, (a.z + b.z) % 256, (a.w + b.w) % 256⟩ ∧
      Vec4T.sub cUChar.scalar a b =
        ⟨(a.x - b.x) % 256, (a.y - b.y) % 256, (a.z - b.z) % 256, (a.w - b.w) % 256⟩ ∧
      Vec4T.mul cUChar.scalar a b =
        ⟨(a.x * b.x) % 256, (a.y * b.y) % 256, (a.z * b.z) % 256, (a.w * b.w) % 256⟩) ∧
    (Vec4T.add cUChar.scalar ⟨200, 0, 0, 0⟩ ⟨100, 0, 0, 0⟩ = ⟨44, 0, 0, 0⟩ ∧
      Vec4T.sub cUChar.scalar ⟨0, 0, 0, 0⟩ ⟨1, 0, 0, 0⟩ = ⟨255, 0, 0, 0⟩ ∧
      Vec3T.mul cUChar.scalar ⟨16, 255, 2⟩ ⟨16, 255, 3⟩ = ⟨0, 1, 6⟩) := by
  refine ⟨fun a b => ⟨?_, ?_, ?_⟩, fun a b => ⟨?_, ?_, ?_⟩, by decide⟩
  · show Vec3T.mk (cUChar.conv (cUChar.prom.conv _)) (cUChar.conv (cUChar.prom.conv _))
      (cUChar.conv (cUChar.prom.conv _)) = _
    simp only [cUChar_wrap]
  · show Vec3T.mk (cUChar.conv (cUChar.prom.conv _)) (cUChar.conv (cUChar.prom.conv _))
      (cUChar.conv (cUChar.prom.conv _)) = _
    simp only [cUChar_wrap]
  · show Vec3T.mk (cUChar.conv (cUChar.prom.conv _)) (cUChar.conv (cUChar.prom.conv _))
      (cUChar.conv (cUChar.prom.conv _)) = _
    simp only [cUChar_wrap]
  · show Vec4T.mk (cUChar.conv (cUChar.prom.conv _)) (cUChar.conv (cUChar.prom.conv _))
      (cUChar.conv (cUChar.prom.conv _)) (cUChar.conv (cUChar.prom.conv _)) = _
    simp only [cUChar_wrap]
  · show Vec4T.mk (cUChar.conv (cUChar.prom.conv _)) (cUChar.conv (cUChar.prom.conv _))
      (cUChar.conv (cUChar.prom.conv _)) (cUChar.conv (cUChar.prom.conv _)) = _
    simp only [cUChar_wrap]
  · show Vec4T.mk (cUChar.conv (cUChar.prom.conv _)) (cUChar.conv (cUChar.prom.conv _))
      (cUChar.conv (cUChar.prom.conv _)) (cUChar.conv (cUChar.prom.conv _)) = _
    simp only [cUChar_wrap]

/-! ## Indexing and construction -/

theorem Vec2T.index_outside {T : Type} (v : Vec2T T) (i : Int) (h0 : i ≠ 0) (h1 : i ≠ 1) :
    v.index i = none := by
  unfold Vec2T.index
  split
  · next hi =>
    obtain ⟨n, hn⟩ : ∃ n : Nat, i.toNat = n + 2 := ⟨i.toNat - 2, by omega⟩
    rw [hn]
    rfl
  · rfl

/-- C13. Index access on `Vec2T`: `v[0]` is `x` and `v[1]` is `y`; a store of `t` at an index
`i` of `0` or `1` is read back at `i` as `t` and leaves the component at the other index as it
was; at any other index neither the read nor the store has a result (no bounds check maps it
to a component). -/
theorem index_access {T : Type} (v : Vec2T T) (t : T) :
    (v.index 0 = some v.x ∧ v.index 1 = some v.y) ∧
    (v.setIndex 0 t = some ⟨t, v.y⟩ ∧ v.setIndex 1 t = some ⟨v.x, t⟩) ∧
    (∀ i : Int, i = 0 ∨ i = 1 →
      ∃ u, v.setIndex i t = some u ∧ u.index i = some t ∧ u.index (1 - i) = v.index (1 - i)) ∧
    (∀ i : Int, i ≠ 0 → i ≠ 1 → v.index i = none ∧ v.setIndex i t = none) := by
  refine ⟨⟨rfl, rfl⟩, ⟨rfl, rfl⟩, ?_, ?_⟩
  · rintro i (rfl | rfl)
    · exact ⟨⟨t, v.y⟩, rfl, rfl, rfl⟩
    · exact ⟨⟨v.x, t⟩, rfl, rfl, rfl⟩
  · intro i h0 h1
    refine ⟨v.index_outside i h0 h1, ?_⟩
    simp [Vec2T.setIndex, h0, h1]

/-- C13 at `Vec2(5,6)`: a store of `9` at index `1`, and the index `2`. -/
theorem index_access_witness :
    (∃ u : Vec2T Int, (⟨5, 6⟩ : Vec2T Int).setIndex 1 9 = some u ∧ u.index 1 = some 9 ∧
      u.index (1 - 1) = (⟨5, 6⟩ : Vec2T Int).index (1 - 1)) ∧
    ((⟨5, 6⟩ : Vec2T Int).index 2 = none ∧ (⟨5, 6⟩ : Vec2T Int).setIndex 2 9 = none) :=
  ⟨(index_access ⟨5, 6⟩ 9).2.2.1 1 (Or.inr rfl),
    (index_access ⟨5, 6⟩ 9).2.2.2 2 (by decide) (by decide)⟩

/-- C16. `operator!=` is the negation of `operator==` on `Vec2T`, `Vec3T` and `Vec4T`: for
every element type whose scalar `!=` is the negation of its scalar `==`, and so over every
integer element type, `(v != w) == !(v == w)` for all `v`, `w`. -/
theorem ne_is_not_eq :
    (∀ (T : Type) (S : Scalar T), (∀ s t : T, S.ne s t = !S.eq s t) →
      (∀ v w : Vec2T T, Vec2T.ne S v w = !Vec2T.eq S v w) ∧
      (∀ v w : Vec3T T, Vec3T.ne S v w = !Vec3T.eq S v w) ∧
      (∀ v w : Vec4T T, Vec4T.ne S v w = !Vec4T.eq S v w)) ∧
    (∀ (ty : IntTy),
      (∀ v w : Vec2T Int, Vec2T.ne ty.scalar v w = !Vec2T.eq ty.scalar v w) ∧
      (∀ v w : Vec3T Int, Vec3T.ne ty.scalar v w = !Vec3T.eq ty.scalar v w) ∧
      (∀ v w : Vec4T Int, Vec4T.ne ty.scalar v w = !Vec4T.eq ty.scalar v w)) := by
  have gen : ∀ (T : Type) (S : Scalar T), (∀ s t : T, S.ne s t = !S.eq s t) →
      (∀ v w : Vec2T T, Vec2T.ne S v w = !Vec2T.eq S v w) ∧
      (∀ v w : Vec3T T, Vec3T.ne S v w = !Vec3T.eq S v w) ∧
      (∀ v w : Vec4T T, Vec4T.ne S v w = !Vec4T.eq S v w) := by
    intro T S h
    refine ⟨fun v w => ?_, fun v w => ?_, fun v w => ?_⟩
    · simp only [Vec2T.ne, Vec2T.eq, h, Bool.not_and]
    · simp only [Vec3T.ne, Vec3T.eq, h, Bool.not_and]
    · simp only [Vec4T.ne, Vec4T.eq, h, Bool.not_and]
  refine ⟨gen, fun ty => gen Int ty.scalar ?_⟩
  intro s t
  simp [IntTy.scalar]

/-- C16 at `int`, on `Vec2(1,2)` against `Vec2(1,3)` and against itself. -/
theorem ne_is_not_eq_witness :
    (Vec2T.ne cInt.scalar ⟨1, 2⟩ ⟨1, 3⟩ = !Vec2T.eq cInt.scalar ⟨1, 2⟩ ⟨1, 3⟩) ∧
    (Vec2T.ne cInt.scalar ⟨1, 2⟩ ⟨1, 2⟩ = !Vec2T.eq cInt.scalar ⟨1, 2⟩ ⟨1, 2⟩) :=
  ⟨(ne_is_not_eq.1 Int cInt.scalar (fun s t => by simp [IntTy.scalar])).1 ⟨1, 2⟩ ⟨1, 3⟩,
    (ne_is_not_eq.1 Int cInt.scalar (fun s t => by simp [IntTy.scalar])).1 ⟨1, 2⟩ ⟨1, 2⟩⟩

/-! ## Subtraction and negation under wraparound -/

theorem IntTy.scalar_add_sub_cancel (ty : IntTy) {a : Int} (ha : ty.inRange a) (b : Int) :
    ty.scalar.sub (ty.scalar.add a b) b = a := by
  show ty.conv (ty.prom.conv (ty.conv (ty.prom.conv (a + b)) - b)) = a
  have h : ty.conv (ty.prom.conv (a + b)) - b ≡ a [ZMOD 2 ^ ty.bits] := by
    simpa using (ty.wrap_modEq (a + b)).sub_right b
  rw [ty.wrap_congr h]
  exact ty.wrap_of_inRange ha

theorem IntTy.scalar_sub_add_cancel (ty : IntTy) {a : Int} (ha : ty.inRange a) (b : Int) :
    ty.scalar.add (ty.scalar.sub a b) b = a := by
  show ty.conv (ty.prom.conv (ty.conv (ty.prom.conv (a - b)) + b)) = a
  have h : ty.conv (ty.prom.conv (a - b)) + b ≡ a [ZMOD 2 ^ ty.bits] := by
    simpa using (ty.wrap_modEq (a - b)).add_right b
  rw [ty.wrap_congr h]
  exact ty.wrap_of_inRange ha

theorem IntTy.scalar_sub_self (ty : IntTy) (a : Int) :
    ty.scalar.sub a a = ty.scalar.zero := by
  show ty.conv (ty.prom.conv (a - a)) = ty.conv 0
  rw [sub_self]
  exact ty.conv_congr (ty.prom_conv_modEq 0)

/-- C17, as stated, fails when `b` is `v` itself: on `int`, with `v = Vec2(1,2)`, the statements
`v += v; v -= v` leave `(0,0)` in `v`, because the operand of `-=` is a reference to `v` and so
is read after `+=` has changed it; as values, `(v + v) - v` is `(1,2)`. -/
theorem add_sub_self_alias_differs :
    (∀ c ∈ (⟨1, 2⟩ : Vec2T Int).toBuf, cInt.inRange c) ∧
    Vec2T.addAssign cInt.scalar ⟨1, 2⟩ .self = ⟨2, 4⟩ ∧
    Vec2T.subAssign cInt.scalar (Vec2T.addAssign cInt.scalar ⟨1, 2⟩ .self) .self = ⟨0, 0⟩ ∧
    Vec2T.subAssign cInt.scalar (Vec2T.addAssign cInt.scalar ⟨1, 2⟩ .self) .self ≠ ⟨1, 2⟩ ∧
    Vec2T.sub cInt.scalar (Vec2T.add cInt.scalar ⟨1, 2⟩ ⟨1, 2⟩) ⟨1, 2⟩ = ⟨1, 2⟩ := by
  decide

/-- C17, amended. Over every integer element type, for a vector `a` whose components are values
of the type and any `b`: `(a + b) - b` and `(a - b) + b` are `a`, also when the sum or
difference wraps, on `Vec2T`, `Vec3T` and `Vec4T`; and `v += b; v -= b`, with `b` a vector
other than `v` itself, leaves `v` as it was. With `v` itself as the operand of both, the two
statements leave the default-constructed vector. -/
theorem sub_undoes_add (ty : IntTy) :
    (∀ a b : Vec2T Int, (∀ c ∈ a.toBuf, ty.inRange c) →
      Vec2T.sub ty.scalar (Vec2T.add ty.scalar a b) b = a ∧
      Vec2T.add ty.scalar (Vec2T.sub ty.scalar a b) b = a ∧
      Vec2T.subAssign ty.scalar (Vec2T.addAssign ty.scalar a (.ext b)) (.ext b) = a) ∧
    (∀ a b : Vec3T Int, (∀ c ∈ a.toBuf, ty.inRange c) →
      Vec3T.sub ty.scalar (Vec3T.add ty.scalar a b) b = a ∧
      Vec3T.add ty.scalar (Vec3T.sub ty.scalar a b) b = a ∧
      Vec3T.subAssign ty.scalar (Vec3T.addAssign ty.scalar a (.ext b)) (.ext b) = a) ∧
    (∀ a b : Vec4T Int, (∀ c ∈ a.toBuf, ty.inRange c) →
      Vec4T.sub ty.scalar (Vec4T.add ty.scalar a b) b = a ∧
      Vec4T.add ty.scalar (Vec4T.sub ty.scalar a b) b = a ∧
      Vec4T.subAssign ty.scalar (Vec4T.addAssign ty.scalar a (.ext b)) (.ext b) = a) ∧
    ((∀ v : Vec2T Int, Vec2T.subAssign ty.scalar (Vec2T.addAssign ty.scalar v .self) .self =
        Vec2T.defaultCtor ty.scalar) ∧
      (∀ v : Vec3T Int, Vec3T.subAssign ty.scalar (Vec3T.addAssign ty.scalar v .self) .self =
        Vec3T.defaultCtor ty.scalar) ∧
      (∀ v : Vec4T Int, Vec4T.subAssign ty.scalar (Vec4T.addAssign ty.scalar v .self) .self =
        Vec4T.defaultCtor ty.scalar)) := by
  refine ⟨?_, ?_, ?_, ⟨fun v => ?_, fun v => ?_, fun v => ?_⟩⟩
  rotate_right 3
  · simp only [Vec2T.subAssign, Vec2T.addAssign, Vec2T.defaultCtor, VRef.read,
      Vec2T.mk.injEq]
    exact ⟨ty.scalar_sub_self _, ty.scalar_sub_self _⟩
  · simp only [Vec3T.subAssign, Vec3T.addAssign, Vec3T.defaultCtor, VRef.read,
      Vec3T.mk.injEq]
    exact ⟨ty.scalar_sub_self _, ty.scalar_sub_self _, ty.scalar_sub_self _⟩
  · simp only [Vec4T.subAssign, Vec4T.addAssign, Vec4T.defaultCtor, VRef.read,
      Vec4T.mk.injEq]
    exact ⟨ty.scalar_sub_self _, ty.scalar_sub_self _, ty.scalar_sub_self _,
      ty.scalar_sub_self _⟩
  · rintro ⟨ax, ay⟩ b h
    have hx : ty.inRange ax := h ax (by simp [Vec2T.toBuf])
    have hy : ty.inRange ay := h ay (by simp [Vec2T.toBuf])
    simp only [Vec2T.sub, Vec2T.add, Vec2T.subAssign, Vec2T.addAssign, Vec2T.valueCtor,
      VRef.read, Vec2T.mk.injEq]
    exact ⟨⟨ty.scalar_add_sub_cancel hx _, ty.scalar_add_sub_cancel hy _⟩,
      ⟨ty.scalar_sub_add_cancel hx _, ty.scalar_sub_add_cancel hy _⟩,
      ⟨ty.scalar_add_sub_cancel hx _, ty.scalar_add_sub_cancel hy _⟩⟩
  · rintro ⟨ax, ay, az⟩ b h
    have hx : ty.inRange ax := h ax (by simp [Vec3T.toBuf])
    have hy : ty.inRange ay := h ay (by simp [Vec3T.toBuf])
    have hz : ty.inRange az := h az (by simp [Vec3T.toBuf])
    simp only [Vec3T.sub, Vec3T.add, Vec3T.subAssign, Vec3T.addAssign, Vec3T.valueCtor,
      VRef.read, Vec3T.mk.injEq]
    exact ⟨⟨ty.scalar_add_sub_cancel hx _, ty.scalar_add_sub_cancel hy _,
        ty.scalar_add_sub_cancel hz _⟩,
      ⟨ty.scalar_sub_add_cancel hx _, ty.scalar_sub_add_cancel hy _,
        ty.scalar_sub_add_cancel hz _⟩,
      ⟨ty.scalar_add_sub_cancel hx _, ty.scalar_add_sub_cancel hy _,
        ty.scalar_add_sub_cancel hz _⟩⟩
  · rintro ⟨ax, ay, az, aw⟩ b h
    have hx : ty.inRange ax := h ax (by simp [Vec4T.toBuf])
    have hy : ty.inRange ay := h ay (by simp [Vec4T.toBuf])
    have hz : ty.inRange az := h az (by simp [Vec4T.toBuf])
    have hw : ty.inRange aw := h aw (by simp [Vec4T.toBuf])
    simp only [Vec4T.sub, Vec4T.add, Vec4T.subAssign, Vec4T.addAssign, Vec4T.valueCtor,
      VRef.read, Vec4T.mk.injEq]
    exact ⟨⟨ty.scalar_add_sub_cancel hx _, ty.scalar_add_sub_cancel hy _,
        ty.scalar_add_sub_cancel hz _, ty.scalar_add_sub_cancel hw _⟩,
      ⟨ty.scalar_sub_add_cancel hx _, ty.scalar_sub_add_cancel hy _,
        ty.scalar_sub_add_cancel hz _, ty.scalar_sub_add_cancel hw _⟩,
      ⟨ty.scalar_add_sub_cancel hx _, ty.scalar_add_sub_cancel hy _,
        ty.scalar_add_sub_cancel hz _, ty.scalar_add_sub_cancel hw _⟩⟩

/-- C17 on `unsigned char` with a wrapping sum (`200 + 100`) and a wrapping difference
(`5 - 250`), and on `int` at the greatest value. -/
theorem sub_undoes_add_witness :
    (Vec2T.sub cUChar.scalar (Vec2T.add cUChar.scalar ⟨200, 5⟩ ⟨100, 250⟩) ⟨100, 250⟩ =
        ⟨200, 5⟩ ∧
      Vec2T.add cUChar.scalar (Vec2T.sub cUChar.scalar ⟨200, 5⟩ ⟨100, 250⟩) ⟨100, 250⟩ =
        ⟨200, 5⟩ ∧
      Vec2T.subAssign cUChar.scalar
        (Vec2T.addAssign cUChar.scalar ⟨200, 5⟩ (.ext ⟨100, 250⟩)) (.ext ⟨100, 250⟩) =
        ⟨200, 5⟩) ∧
    (Vec4T.sub cInt.scalar (Vec4T.add cInt.scalar ⟨2147483647, 0, -1, 7⟩ ⟨1, 2, 3, 4⟩)
        ⟨1, 2, 3, 4⟩ = ⟨2147483647, 0, -1, 7⟩ ∧
      Vec4T.add cInt.scalar (Vec4T.sub cInt.scalar ⟨2147483647, 0, -1, 7⟩ ⟨1, 2, 3, 4⟩)
        ⟨1, 2, 3, 4⟩ = ⟨2147483647, 0, -1, 7⟩ ∧
      Vec4T.subAssign cInt.scalar
        (Vec4T.addAssign cInt.scalar ⟨2147483647, 0, -1, 7⟩ (.ext ⟨1, 2, 3, 4⟩))
        (.ext ⟨1, 2, 3, 4⟩) = ⟨2147483647, 0, -1, 7⟩) :=
  ⟨(sub_undoes_add cUChar).1 ⟨200, 5⟩ ⟨100, 250⟩ (by decide),
    (sub_undoes_add cInt).2.2.1 ⟨2147483647, 0, -1, 7⟩ ⟨1, 2, 3, 4⟩ (by decide)⟩

theorem IntTy.scalar_neg_neg (ty : IntTy) {a : Int} (ha : ty.inRange a) :
    ty.scalar.neg (ty.scalar.neg a) = a := by
  show ty.conv (ty.prom.conv (-ty.conv (ty.prom.conv (-a)))) = a
  have h : -ty.conv (ty.prom.conv (-a)) ≡ a [ZMOD 2 ^ ty.bits] := by
    simpa using (ty.wrap_modEq (-a)).neg
  rw [ty.wrap_congr h]
  exact ty.wrap_of_inRange ha

theorem IntTy.scalar_neg_eq_zero_sub (ty : IntTy) (a : Int) :
    ty.scalar.neg a = ty.scalar.sub ty.scalar.zero a := by
  show ty.conv (ty.prom.conv (-a)) = ty.conv (ty.prom.conv (ty.conv 0 - a))
  apply ty.wrap_congr
  have h : ty.conv 0 - a ≡ -a [ZMOD 2 ^ ty.bits] := by
    simpa using (ty.conv_modEq 0).sub_right a
  exact h.symm

theorem IntTy.scalar_add_neg (ty : IntTy) (a : Int) :
    ty.scalar.add a (ty.scalar.neg a) = ty.scalar.zero := by
  show ty.conv (ty.prom.conv (a + ty.conv (ty.prom.conv (-a)))) = ty.conv 0
  have h : a + ty.conv (ty.prom.conv (-a)) ≡ 0 [ZMOD 2 ^ ty.bits] := by
    simpa using (ty.wrap_modEq (-a)).add_left a
  rw [ty.wrap_congr h]
  exact ty.conv_congr (ty.prom_conv_modEq 0)

/-- C18. Over every integer element type, on `Vec4T`: `-v` is `Vec4T() - v` and `v + (-v)` is
the default-constructed vector, for all `v`; and `-(-v)` is `v` for every `v` whose components
are values of the type, the least value of a signed type included. -/
theorem neg_involution_and_zero (ty : IntTy) :
    (∀ v : Vec4T Int,
      Vec4T.neg ty.scalar v = Vec4T.sub ty.scalar (Vec4T.defaultCtor ty.scalar) v ∧
      Vec4T.add ty.scalar v (Vec4T.neg ty.scalar v) = Vec4T.defaultCtor ty.scalar) ∧
    (∀ v : Vec4T Int, (∀ c ∈ v.toBuf, ty.inRange c) →
      Vec4T.neg ty.scalar (Vec4T.neg ty.scalar v) = v) := by
  refine ⟨fun v => ⟨?_, ?_⟩, ?_⟩
  · simp only [Vec4T.neg, Vec4T.sub, Vec4T.defaultCtor, Vec4T.valueCtor, Vec4T.mk.injEq]
    exact ⟨ty.scalar_neg_eq_zero_sub _, ty.scalar_neg_eq_zero_sub _,
      ty.scalar_neg_eq_zero_sub _, ty.scalar_neg_eq_zero_sub _⟩
  · simp only [Vec4T.neg, Vec4T.add, Vec4T.defaultCtor, Vec4T.valueCtor, Vec4T.mk.injEq]
    exact ⟨ty.scalar_add_neg _, ty.scalar_add_neg _, ty.scalar_add_neg _, ty.scalar_add_neg _⟩
  · rintro ⟨vx, vy, vz, vw⟩ h
    have hx : ty.inRange vx := h vx (by simp [Vec4T.toBuf])
    have hy : ty.inRange vy := h vy (by simp [Vec4T.toBuf])
    have hz : ty.inRange vz := h vz (by simp [Vec4T.toBuf])
    have hw : ty.inRange vw := h vw (by simp [Vec4T.toBuf])
    simp only [Vec4T.neg, Vec4T.valueCtor, Vec4T.mk.injEq]
    exact ⟨ty.scalar_neg_neg hx, ty.scalar_neg_neg hy, ty.scalar_neg_neg hz,
      ty.scalar_neg_neg hw⟩

/-- C18 on `int` at `Vec4(1, -2, 2147483647, -2147483648)` and on `unsigned int` at
`Vec4(0, 1, 2, 4294967295)`. -/
theorem neg_involution_and_zero_witness :
    Vec4T.neg cInt.scalar (Vec4T.neg cInt.scalar ⟨1, -2, 2147483647, -2147483648⟩) =
      ⟨1, -2, 2147483647, -2147483648⟩ ∧
    Vec4T.neg cUInt.scalar (Vec4T.neg cUInt.scalar ⟨0, 1, 2, 4294967295⟩) =
      ⟨0, 1, 2, 4294967295⟩ :=
  ⟨(neg_involution_and_zero cInt).2 ⟨1, -2, 2147483647, -2147483648⟩ (by decide),
    (neg_involution_and_zero cUInt).2 ⟨0, 1, 2, 4294967295⟩ (by decide)⟩

/-! ## Shifts of unsigned values -/

theorem IntTy.unsigned_wrap (ty : IntTy) (hu : ty.signed = false) (n : Int) :
    ty.conv (ty.prom.conv n) = n % 2 ^ ty.bits := by
  rw [ty.conv_congr (ty.prom_conv_modEq n)]
  simp [IntTy.conv, hu]

theorem IntTy.unsigned_range (ty : IntTy) (hu : ty.signed = false) {c : Int}
    (h : ty.inRange c) : 0 ≤ c ∧ c < 2 ^ ty.bits := by
  have hM : (0 : Int) < 2 ^ ty.bits := by positivity
  have h2 : c % 2 ^ ty.bits = c := by
    have h3 := h
    unfold IntTy.inRange IntTy.conv at h3
    simpa [hu] using h3
  rw [← h2]
  exact ⟨Int.emod_nonneg _ hM.ne', Int.emod_lt_of_pos _ hM⟩

theorem IntTy.unsigned_conv_of_range (ty : IntTy) (hu : ty.signed = false) {c : Int}
    (h0 : 0 ≤ c) (h1 : c < 2 ^ ty.bits) : ty.conv c = c := by
  simp [IntTy.conv, hu, Int.emod_eq_of_lt h0 h1]

theorem IntTy.shift_amount_ok (ty : IntTy) {s : Int} (h0 : 0 ≤ s) (h1 : s < ty.bits) :
    0 ≤ s ∧ s < (ty.prom.bits : Int) :=
  ⟨h0, lt_of_lt_of_le h1 (by exact_mod_cast ty.bits_le_prom)⟩

theorem IntTy.unsigned_shl (ty : IntTy) (hu : ty.signed = false) (c : Int) {s : Int}
    (h0 : 0 ≤ s) (h1 : s < ty.bits) :
    ty.scalar.shl c s = some ((c * 2 ^ s.toNat) % 2 ^ ty.bits) := by
  show (if 0 ≤ s ∧ s < (ty.prom.bits : Int) then
    some (ty.conv (ty.prom.conv (c * 2 ^ s.toNat))) else none) = _
  rw [if_pos (ty.shift_amount_ok h0 h1), ty.unsigned_wrap hu]

theorem IntTy.unsigned_shr (ty : IntTy) (hu : ty.signed = false) {c : Int}
    (hc : ty.inRange c) {s : Int} (h0 : 0 ≤ s) (h1 : s < ty.bits) :
    ty.scalar.shr c s = some (c / 2 ^ s.toNat) := by
  show (if 0 ≤ s ∧ s < (ty.prom.bits : Int) then some (ty.conv (c / 2 ^ s.toNat)) else none) = _
  obtain ⟨hc0, hc1⟩ := ty.unsigned_range hu hc
  have hq0 : 0 ≤ c / 2 ^ s.toNat := Int.ediv_nonneg hc0 (by positivity)
  have hq1 : c / 2 ^ s.toNat ≤ c := Int.ediv_le_self _ hc0
  rw [if_pos (ty.shift_amount_ok h0 h1),
    ty.unsigned_conv_of_range hu hq0 (lt_of_le_of_lt hq1 hc1)]

theorem IntTy.unsigned_mul_pow (ty : IntTy) (hu : ty.signed = false) (c : Int) (k : Nat) :
    ty.scalar.mul c (2 ^ k % 2 ^ ty.bits) = (c * 2 ^ k) % 2 ^ ty.bits := by
  show ty.conv (ty.prom.conv (c * (2 ^ k % 2 ^ ty.bits))) = _
  have h : c * (2 ^ k % 2 ^ ty.bits) ≡ c * 2 ^ k [ZMOD 2 ^ ty.bits] :=
    (Int.mod_modEq (2 ^ k) (2 ^ ty.bits)).mul_left c
  rw [ty.wrap_congr h, ty.unsigned_wrap hu]

theorem IntTy.unsigned_shr_shl (ty : IntTy) (hu : ty.signed = false) {c : Int}
    (hc : ty.inRange c) {s : Int} (h0 : 0 ≤ s) (h1 : s < ty.bits) :
    ty.scalar.shl (c / 2 ^ s.toNat) s = some (c - c % 2 ^ s.toNat) := by
  obtain ⟨hc0, hc1⟩ := ty.unsigned_range hu hc
  have hp : (0 : Int) < 2 ^ s.toNat := by positivity
  have he : c / 2 ^ s.toNat * 2 ^ s.toNat = c - c % 2 ^ s.toNat := by
    have := Int.ediv_add_emod c (2 ^ s.toNat)
    linarith
  have hm0 : 0 ≤ c % 2 ^ s.toNat := Int.emod_nonneg _ hp.ne'
  have hm1 : c % 2 ^ s.toNat ≤ c := by
    have hq0 : 0 ≤ c / 2 ^ s.toNat := Int.ediv_nonneg hc0 hp.le
    have : 0 ≤ c / 2 ^ s.toNat * 2 ^ s.toNat := mul_nonneg hq0 hp.le
    linarith
  rw [ty.unsigned_shl hu _ h0 h1, he, Int.emod_eq_of_lt (by linarith) (by linarith)]

/-- C19. Over an unsigned integer element type of width `bits`, for a `Vec4T` `v` whose
components are values of the type and a shift amount `s` with `0 ≤ s < bits`: each component of
`v << s` is the component times `2 ^ s` modulo `2 ^ bits`, each component of `v >> s` is the
component divided by `2 ^ s` rounded down, `v << s` is `v * Vec4T(2 ^ s mod 2 ^ bits)`, and
`(v >> s) << s` is `v` with the low `s` bits of every component cleared. -/
theorem unsigned_shift_arith (ty : IntTy) (hu : ty.signed = false) (v : Vec4T Int) (s : Int)
    (h0 : 0 ≤ s) (h1 : s < ty.bits) (hv : ∀ c ∈ v.toBuf, ty.inRange c) :
    Vec4T.shl ty.scalar v s = some ⟨(v.x * 2 ^ s.toNat) % 2 ^ ty.bits,
      (v.y * 2 ^ s.toNat) % 2 ^ ty.bits, (v.z * 2 ^ s.toNat) % 2 ^ ty.bits,
      (v.w * 2 ^ s.toNat) % 2 ^ ty.bits⟩ ∧
    Vec4T.shr ty.scalar v s = some ⟨v.x / 2 ^ s.toNat, v.y / 2 ^ s.toNat, v.z / 2 ^ s.toNat,
      v.w / 2 ^ s.toNat⟩ ∧
    Vec4T.shl ty.scalar v s =
      some (Vec4T.mul ty.scalar v (Vec4T.singleCtor (2 ^ s.toNat % 2 ^ ty.bits))) ∧
    Vec4T.shl ty.scalar v s = some (Vec4T.mulS ty.scalar v (2 ^ s.toNat % 2 ^ ty.bits)) ∧
    ((Vec4T.shr ty.scalar v s).bind fun u => Vec4T.shl ty.scalar u s) =
      some ⟨v.x - v.x % 2 ^ s.toNat, v.y - v.y % 2 ^ s.toNat, v.z - v.z % 2 ^ s.toNat,
        v.w - v.w % 2 ^ s.toNat⟩ := by
  have hx : ty.inRange v.x := hv v.x (by simp [Vec4T.toBuf])
  have hy : ty.inRange v.y := hv v.y (by simp [Vec4T.toBuf])
  have hz : ty.inRange v.z := hv v.z (by simp [Vec4T.toBuf])
  have hw : ty.inRange v.w := hv v.w (by simp [Vec4T.toBuf])
  have eshl : Vec4T.shl ty.scalar v s = some ⟨(v.x * 2 ^ s.toNat) % 2 ^ ty.bits,
      (v.y * 2 ^ s.toNat) % 2 ^ ty.bits, (v.z * 2 ^ s.toNat) % 2 ^ ty.bits,
      (v.w * 2 ^ s.toNat) % 2 ^ ty.bits⟩ := by
    unfold Vec4T.shl
    rw [ty.unsigned_shl hu v.x h0 h1, ty.unsigned_shl hu v.y h0 h1,
      ty.unsigned_shl hu v.z h0 h1, ty.unsigned_shl hu v.w h0 h1]
    rfl
  have eshr : Vec4T.shr ty.scalar v s = some ⟨v.x / 2 ^ s.toNat, v.y / 2 ^ s.toNat,
      v.z / 2 ^ s.toNat, v.w / 2 ^ s.toNat⟩ := by
    unfold Vec4T.shr
    rw [ty.unsigned_shr hu hx h0 h1, ty.unsigned_shr hu hy h0 h1,
      ty.unsigned_shr hu hz h0 h1, ty.unsigned_shr hu hw h0 h1]
    rfl
  have emul : Vec4T.mulS ty.scalar v (2 ^ s.toNat % 2 ^ ty.bits) =
      ⟨(v.x * 2 ^ s.toNat) % 2 ^ ty.bits, (v.y * 2 ^ s.toNat) % 2 ^ ty.bits,
        (v.z * 2 ^ s.toNat) % 2 ^ ty.bits, (v.w * 2 ^ s.toNat) % 2 ^ ty.bits⟩ := by
    simp only [Vec4T.mulS, Vec4T.valueCtor, ty.unsigned_mul_pow hu]
  refine ⟨eshl, eshr, ?_, ?_, ?_⟩
  · rw [eshl]
    exact congrArg some emul.symm
  · rw [eshl, emul]
  · rw [eshr]
    show Vec4T.shl ty.scalar ⟨v.x / 2 ^ s.toNat, v.y / 2 ^ s.toNat, v.z / 2 ^ s.toNat,
      v.w / 2 ^ s.toNat⟩ s = _
    unfold Vec4T.shl
    rw [ty.unsigned_shr_shl hu hx h0 h1, ty.unsigned_shr_shl hu hy h0 h1,
      ty.unsigned_shr_shl hu hz h0 h1, ty.unsigned_shr_shl hu hw h0 h1]
    rfl

/-- C19 on `unsigned char` at `Vec4(255, 1, 129, 16)` and the shift amount `4`. -/
theorem unsigned_shift_arith_witness :
    Vec4T.shl cUChar.scalar ⟨255, 1, 129, 16⟩ 4 = some ⟨(255 * 2 ^ (4 : Int).toNat) % 2 ^ 8,
      (1 * 2 ^ (4 : Int).toNat) % 2 ^ 8, (129 * 2 ^ (4 : Int).toNat) % 2 ^ 8,
      (16 * 2 ^ (4 : Int).toNat) % 2 ^ 8⟩ ∧
    Vec4T.shr cUChar.scalar ⟨255, 1, 129, 16⟩ 4 = some ⟨255 / 2 ^ (4 : Int).toNat,
      1 / 2 ^ (4 : Int).toNat, 129 / 2 ^ (4 : Int).toNat, 16 / 2 ^ (4 : Int).toNat⟩ ∧
    Vec4T.shl cUChar.scalar ⟨255, 1, 129, 16⟩ 4 = some ⟨240, 16, 16, 0⟩ ∧
    Vec4T.shr cUChar.scalar ⟨255, 1, 129, 16⟩ 4 = some ⟨15, 0, 8, 1⟩ :=
  ⟨(unsigned_shift_arith cUChar rfl ⟨255, 1, 129, 16⟩ 4 (by decide) (by decide) (by decide)).1,
    (unsigned_shift_arith cUChar rfl ⟨255, 1, 129, 16⟩ 4 (by decide) (by decide)
      (by decide)).2.1,
    by decide, by decide⟩

/-! ## Integer division -/

/-- The scalar quotient exists exactly for a non-zero divisor and a truncated quotient the
promoted type holds, and is that quotient converted to the type. -/
theorem IntTy.scalar_div_eq_some (ty : IntTy) (a b q : Int) :
    ty.scalar.div a b = some q ↔
      b ≠ 0 ∧ ty.prom.inRange (Int.tdiv a b) ∧ q = ty.conv (Int.tdiv a b) := by
  show (if b = 0 then none
    else if ty.prom.conv (Int.tdiv a b) = Int.tdiv a b then some (ty.conv (Int.tdiv a b))
    else none) = some q ↔ _
  unfold IntTy.inRange
  by_cases hb : b = 0
  · simp [hb]
  · by_cases hf : ty.prom.conv (Int.tdiv a b) = Int.tdiv a b
    · simp [hb, hf, eq_comm]
    · simp [hb, hf]

theorem IntTy.scalar_div_zero (ty : IntTy) (a : Int) : ty.scalar.div a 0 = none := rfl

/-- Over an unsigned type, the quotient of two values of the type by a non-zero divisor always
exists, and is the quotient of the integers rounded down. -/
theorem IntTy.unsigned_div (ty : IntTy) (hu : ty.signed = false) {a b : Int}
    (ha : ty.inRange a) (hb : ty.inRange b) (hne : b ≠ 0) :
    ty.scalar.div a b = some (a / b) := by
  obtain ⟨ha0, ha1⟩ := ty.unsigned_range hu ha
  obtain ⟨hb0, _⟩ := ty.unsigned_range hu hb
  have ht : Int.tdiv a b = a / b := Int.tdiv_eq_ediv ha0 hb0
  have hq0 : 0 ≤ a / b := Int.ediv_nonneg ha0 hb0
  have hq1 : a / b < 2 ^ ty.bits := lt_of_le_of_lt (Int.ediv_le_self _ ha0) ha1
  rw [ty.scalar_div_eq_some, ht]
  refine ⟨hne, ?_, (ty.unsigned_conv_of_range hu hq0 hq1).symm⟩
  unfold IntTy.inRange IntTy.prom
  by_cases hlt : ty.bits < 32
  · simp only [hlt, if_true]
    have hle : (2 : Int) ^ ty.bits ≤ 2 ^ (32 - 1) := pow_le_pow_right₀ (by norm_num) (by omega)
    have hpos : (0 : Int) < 2 ^ (32 - 1) := by positivity
    exact IntTy.conv_signed_of_range 32 (by norm_num) _ (by linarith) (by linarith)
  · simp only [hlt, if_false]
    exact ty.unsigned_conv_of_range hu hq0 hq1

theorem cInt_inRange_iff (n : Int) : cInt.inRange n ↔ -2147483648 ≤ n ∧ n < 2147483648 := by
  unfold IntTy.inRange IntTy.conv cInt
  norm_num
  omega

/-- On `int`, the truncated quotient of two values by a non-zero divisor is a value of `int`
except for the least value divided by `-1`. -/
theorem cInt_quotient_fits {a b : Int} (ha : cInt.inRange a) (hb : cInt.inRange b)
    (hne : b ≠ 0) :
    cInt.prom.inRange (Int.tdiv a b) ↔ ¬(a = -2147483648 ∧ b = -1) := by
  have hprom : cInt.prom = cInt := rfl
  rw [hprom, cInt_inRange_iff]
  rw [cInt_inRange_iff] at ha hb
  by_cases h1 : b = 1
  · subst h1; simp only [Int.tdiv_one]; omega
  by_cases h2 : b = -1
  · subst h2
    have : Int.tdiv a (-1) = -a := by rw [Int.tdiv_neg, Int.tdiv_one]
    rw [this]; omega
  · have hq : (Int.tdiv a b).natAbs ≤ a.natAbs / 2 := by
      rw [Int.natAbs_tdiv]
      exact Nat.div_le_div_left (by omega) (by norm_num)
    have : ¬(a = -2147483648 ∧ b = -1) := fun h => h2 h.2
    simp only [this, not_false_eq_true, iff_true]
    omega

theorem vec2_int_div_eq_some (ty : IntTy) (a b q : Vec2T Int) :
    Vec2T.div ty.scalar a b = some q ↔
      (∀ p ∈ List.zip a.toBuf b.toBuf, p.2 ≠ 0 ∧ ty.prom.inRange (Int.tdiv p.1 p.2)) ∧
      q.toBuf = (List.zip a.toBuf b.toBuf).map fun p => ty.conv (Int.tdiv p.1 p.2) := by
  obtain ⟨qx, qy⟩ := q
  rw [vec2_div_eq_some, ty.scalar_div_eq_some, ty.scalar_div_eq_some]
  simp only [Vec2T.toBuf, List.zip_cons_cons, List.zip_nil_right, List.mem_cons,
    List.mem_singleton, List.not_mem_nil, or_false, forall_eq_or_imp, forall_eq,
    List.map_cons, List.map_nil, List.cons.injEq, and_true]
  tauto

theorem vec3_int_div_eq_some (ty : IntTy) (a b q : Vec3T Int) :
    Vec3T.div ty.scalar a b = some q ↔
      (∀ p ∈ List.zip a.toBuf b.toBuf, p.2 ≠ 0 ∧ ty.prom.inRange (Int.tdiv p.1 p.2)) ∧
      q.toBuf = (List.zip a.toBuf b.toBuf).map fun p => ty.conv (Int.tdiv p.1 p.2) := by
  obtain ⟨qx, qy, qz⟩ := q
  rw [vec3_div_eq_some, ty.scalar_div_eq_some, ty.scalar_div_eq_some, ty.scalar_div_eq_some]
  simp only [Vec3T.toBuf, List.zip_cons_cons, List.zip_nil_right, List.mem_cons,
    List.mem_singleton, List.not_mem_nil, or_false, forall_eq_or_imp, forall_eq,
    List.map_cons, List.map_nil, List.cons.injEq, and_true]
  tauto

theorem vec4_int_div_eq_some (ty : IntTy) (a b q : Vec4T Int) :
    Vec4T.div ty.scalar a b = some q ↔
      (∀ p ∈ List.zip a.toBuf b.toBuf, p.2 ≠ 0 ∧ ty.prom.inRange (Int.tdiv p.1 p.2)) ∧
      q.toBuf = (List.zip a.toBuf b.toBuf).map fun p => ty.conv (Int.tdiv p.1 p.2) := by
  obtain ⟨qx, qy, qz, qw⟩ := q
  rw [vec4_div_eq_some, ty.scalar_div_eq_some, ty.scalar_div_eq_some, ty.scalar_div_eq_some,
    ty.scalar_div_eq_some]
  simp only [Vec4T.toBuf, List.zip_cons_cons, List.zip_nil_right, List.mem_cons,
    List.mem_singleton, List.not_mem_nil, or_false, forall_eq_or_imp, forall_eq,
    List.map_cons, List.map_nil, List.cons.injEq, and_true]
  tauto

theorem vec2_int_div_zero (ty : IntTy) (a b : Vec2T Int) (h : (0 : Int) ∈ b.toBuf) :
    Vec2T.div ty.scalar a b = none := by
  cases hd : Vec2T.div ty.scalar a b with
  | none => rfl
  | some q =>
    exfalso
    have h2 := ((vec2_int_div_eq_some ty a b q).mp hd).1
    simp only [Vec2T.toBuf, List.zip_cons_cons, List.zip_nil_right, List.mem_cons,
      List.mem_singleton, List.not_mem_nil, or_false, forall_eq_or_imp, forall_eq] at h h2
    rcases h with h | h
    · exact h2.1.1 h.symm
    · exact h2.2.1 h.symm

theorem vec3_int_div_zero (ty : IntTy) (a b : Vec3T Int) (h : (0 : Int) ∈ b.toBuf) :
    Vec3T.div ty.scalar a b = none := by
  cases hd : Vec3T.div ty.scalar a b with
  | none => rfl
  | some q =>
    exfalso
    have h2 := ((vec3_int_div_eq_some ty a b q).mp hd).1
    simp only [Vec3T.toBuf, List.zip_cons_cons, List.zip_nil_right, List.mem_cons,
      List.mem_singleton, List.not_mem_nil, or_false, forall_eq_or_imp, forall_eq] at h h2
    rcases h with h | h | h
    · exact h2.1.1 h.symm
    · exact h2.2.1.1 h.symm
    · exact h2.2.2.1 h.symm

theorem vec4_int_div_zero (ty : IntTy) (a b : Vec4T Int) (h : (0 : Int) ∈ b.toBuf) :
    Vec4T.div ty.scalar a b = none := by
  cases hd : Vec4T.div ty.scalar a b with
  | none => rfl
  | some q =>
    exfalso
    have h2 := ((vec4_int_div_eq_some ty a b q).mp hd).1
    simp only [Vec4T.toBuf, List.zip_cons_cons, List.zip_nil_right, List.mem_cons,
      List.mem_singleton, List.not_mem_nil, or_false, forall_eq_or_imp, forall_eq] at h h2
    rcases h with h | h | h | h
    · exact h2.1.1 h.symm
    · exact h2.2.1.1 h.symm
    · exact h2.2.2.1.1 h.symm
    · exact h2.2.2.2.1 h.symm

/-- On `int`, for buffers of values of the type: every truncated quotient of corresponding
elements is a value of `int` exactly when no pair is the least value over `-1`. -/
theorem cInt_zip_fits (la lb : List Int) (ha : ∀ c ∈ la, cInt.inRange c)
    (hb : ∀ c ∈ lb, cInt.inRange c) :
    (∀ p ∈ List.zip la lb, p.2 ≠ 0 ∧ cInt.prom.inRange (Int.tdiv p.1 p.2)) ↔
      ∀ p ∈ List.zip la lb, p.2 ≠ 0 ∧ ¬(p.1 = -2147483648 ∧ p.2 = -1) := by
  refine forall_congr' fun p => forall_congr' fun hp => ?_
  obtain ⟨p1, p2⟩ := p
  obtain ⟨h1, h2⟩ := List.of_mem_zip hp
  constructor
  · rintro ⟨h0, hf⟩
    exact ⟨h0, (cInt_quotient_fits (ha _ h1) (hb _ h2) h0).mp hf⟩
  · rintro ⟨h0, hf⟩
    exact ⟨h0, (cInt_quotient_fits (ha _ h1) (hb _ h2) h0).mpr hf⟩

/-- C15, as stated, fails on `int`: every component of the divisor `(-1, 3)` is non-zero, and
`Vec2(-2147483648, 6) / Vec2(-1, 3)` has no result, nor has `Vec2(-2147483648, 6) / -1`, because
the quotient `2147483648` is not a value of `int`. And with `v = Vec2(2, 4)`, `v /= v.x` leaves
`(1, 4)`, whose second component is not the quotient of `4` by the operand value `2`. -/
theorem div_nonzero_divisor_undefined :
    ((∀ c ∈ (⟨-1, 3⟩ : Vec2T Int).toBuf, c ≠ 0 ∧ cInt.inRange c) ∧
      (∀ c ∈ (⟨-2147483648, 6⟩ : Vec2T Int).toBuf, cInt.inRange c) ∧
      Vec2T.div cInt.scalar ⟨-2147483648, 6⟩ ⟨-1, 3⟩ = none ∧
      Vec2T.divS cInt.scalar ⟨-2147483648, 6⟩ (-1) = none ∧
      Vec2T.divAssign cInt.scalar ⟨-2147483648, 6⟩ (.ext (-1)) = none) ∧
    (Vec2T.divAssign cInt.scalar ⟨2, 4⟩ (.comp 0) = some ⟨1, 4⟩ ∧
      Vec2T.divS cInt.scalar ⟨2, 4⟩ (Vec2T.readS (.comp 0) ⟨2, 4⟩) = some ⟨1, 2⟩) := by
  decide

/-- C15, amended. Over every integer element type, `a / b` on `Vec2T`, `Vec3T` and `Vec4T` has
a result exactly when no component of `b` is zero and every truncated quotient of corresponding
components is a value of the promoted type, and the result components are those quotients
converted to the element type; `v / s` is `v / VecN(s)`, and `v /= s` is `v / s` for a scalar
operand outside `v` or the last component of `v`. A zero divisor component, or a zero `s`,
leaves no result, and no component takes a default value. Over an unsigned type, for operands
that are values of the type, the result exists whenever no divisor component is zero and its
components are the quotients rounded down; over `int` it exists exactly when no divisor
component is zero and no pair of components is `-2147483648` over `-1`. -/
theorem div_defined_iff (ty : IntTy) :
    (∀ a b q : Vec2T Int, Vec2T.div ty.scalar a b = some q ↔
      (∀ p ∈ List.zip a.toBuf b.toBuf, p.2 ≠ 0 ∧ ty.prom.inRange (Int.tdiv p.1 p.2)) ∧
      q.toBuf = (List.zip a.toBuf b.toBuf).map fun p => ty.conv (Int.tdiv p.1 p.2)) ∧
    (∀ a b q : Vec3T Int, Vec3T.div ty.scalar a b = some q ↔
      (∀ p ∈ List.zip a.toBuf b.toBuf, p.2 ≠ 0 ∧ ty.prom.inRange (Int.tdiv p.1 p.2)) ∧
      q.toBuf = (List.zip a.toBuf b.toBuf).map fun p => ty.conv (Int.tdiv p.1 p.2)) ∧
    (∀ a b q : Vec4T Int, Vec4T.div ty.scalar a b = some q ↔
      (∀ p ∈ List.zip a.toBuf b.toBuf, p.2 ≠ 0 ∧ ty.prom.inRange (Int.tdiv p.1 p.2)) ∧
      q.toBuf = (List.zip a.toBuf b.toBuf).map fun p => ty.conv (Int.tdiv p.1 p.2)) ∧
    (∀ s : Int,
      (∀ v : Vec2T Int,
        Vec2T.divS ty.scalar v s = Vec2T.div ty.scalar v (Vec2T.singleCtor s) ∧
        Vec2T.divAssign ty.scalar v (.ext s) = Vec2T.divS ty.scalar v s ∧
        Vec2T.divAssign ty.scalar v (.comp 1) = Vec2T.divS ty.scalar v v.y) ∧
      (∀ v : Vec3T Int,
        Vec3T.divS ty.scalar v s = Vec3T.div ty.scalar v (Vec3T.singleCtor s) ∧
        Vec3T.divAssign ty.scalar v (.ext s) = Vec3T.divS ty.scalar v s ∧
        Vec3T.divAssign ty.scalar v (.comp 2) = Vec3T.divS ty.scalar v v.z) ∧
      (∀ v : Vec4T Int,
        Vec4T.divS ty.scalar v s = Vec4T.div ty.scalar v (Vec4T.singleCtor s) ∧
        Vec4T.divAssign ty.scalar v (.ext s) = Vec4T.divS ty.scalar v s ∧
        Vec4T.divAssign ty.scalar v (.comp 3) = Vec4T.divS ty.scalar v v.w)) ∧
    (∀ a b : Vec2T Int, (0 : Int) ∈ b.toBuf → Vec2T.div ty.scalar a b = none) ∧
    (∀ a b : Vec3T Int, (0 : Int) ∈ b.toBuf → Vec3T.div ty.scalar a b = none) ∧
    (∀ a b : Vec4T Int, (0 : Int) ∈ b.toBuf → Vec4T.div ty.scalar a b = none) ∧
    (∀ (v2 : Vec2T Int) (v3 : Vec3T Int) (v4 : Vec4T Int),
      (Vec2T.divS ty.scalar v2 0 = none ∧ Vec2T.divAssign ty.scalar v2 (.ext 0) = none) ∧
      (Vec3T.divS ty.scalar v3 0 = none ∧ Vec3T.divAssign ty.scalar v3 (.ext 0) = none) ∧
      (Vec4T.divS ty.scalar v4 0 = none ∧ Vec4T.divAssign ty.scalar v4 (.ext 0) = none)) ∧
    (ty.signed = false →
      (∀ a b : Vec2T Int, (∀ c ∈ a.toBuf, ty.inRange c) →
        (∀ c ∈ b.toBuf, ty.inRange c ∧ c ≠ 0) →
        Vec2T.div ty.scalar a b = some ⟨a.x / b.x, a.y / b.y⟩) ∧
      (∀ a b : Vec3T Int, (∀ c ∈ a.toBuf, ty.inRange c) →
        (∀ c ∈ b.toBuf, ty.inRange c ∧ c ≠ 0) →
        Vec3T.div ty.scalar a b = some ⟨a.x / b.x, a.y / b.y, a.z / b.z⟩) ∧
      (∀ a b : Vec4T Int, (∀ c ∈ a.toBuf, ty.inRange c) →
        (∀ c ∈ b.toBuf, ty.inRange c ∧ c ≠ 0) →
        Vec4T.div ty.scalar a b = some ⟨a.x / b.x, a.y / b.y, a.z / b.z, a.w / b.w⟩)) ∧
    (∀ a b : Vec2T Int, (∀ c ∈ a.toBuf, cInt.inRange c) → (∀ c ∈ b.toBuf, cInt.inRange c) →
      ((Vec2T.div cInt.scalar a b).isSome = true ↔
        ∀ p ∈ List.zip a.toBuf b.toBuf, p.2 ≠ 0 ∧ ¬(p.1 = -2147483648 ∧ p.2 = -1))) ∧
    (∀ a b : Vec3T Int, (∀ c ∈ a.toBuf, cInt.inRange c) → (∀ c ∈ b.toBuf, cInt.inRange c) →
      ((Vec3T.div cInt.scalar a b).isSome = true ↔
        ∀ p ∈ List.zip a.toBuf b.toBuf, p.2 ≠ 0 ∧ ¬(p.1 = -2147483648 ∧ p.2 = -1))) ∧
    (∀ a b : Vec4T Int, (∀ c ∈ a.toBuf, cInt.inRange c) → (∀ c ∈ b.toBuf, cInt.inRange c) →
      ((Vec4T.div cInt.scalar a b).isSome = true ↔
        ∀ p ∈ List.zip a.toBuf b.toBuf, p.2 ≠ 0 ∧ ¬(p.1 = -2147483648 ∧ p.2 = -1))) := by
  refine ⟨vec2_int_div_eq_some ty, vec3_int_div_eq_some ty, vec4_int_div_eq_some ty,
    fun s => ⟨fun v => ⟨rfl, rfl, rfl⟩, fun v => ⟨rfl, rfl, rfl⟩, fun v => ⟨rfl, rfl, rfl⟩⟩,
    vec2_int_div_zero ty, vec3_int_div_zero ty, vec4_int_div_zero ty,
    fun v2 v3 v4 => ⟨⟨rfl, rfl⟩, ⟨rfl, rfl⟩, ⟨rfl, rfl⟩⟩, fun hu => ⟨?_, ?_, ?_⟩, ?_, ?_, ?_⟩
  · intro a b ha hb
    have hbx := hb b.x (by simp [Vec2T.toBuf])
    have hby := hb b.y (by simp [Vec2T.toBuf])
    unfold Vec2T.div
    rw [ty.unsigned_div hu (ha a.x (by simp [Vec2T.toBuf])) hbx.1 hbx.2,
      ty.unsigned_div hu (ha a.y (by simp [Vec2T.toBuf])) hby.1 hby.2]
    rfl
  · intro a b ha hb
    have hbx := hb b.x (by simp [Vec3T.toBuf])
    have hby := hb b.y (by simp [Vec3T.toBuf])
    have hbz := hb b.z (by simp [Vec3T.toBuf])
    unfold Vec3T.div
    rw [ty.unsigned_div hu (ha a.x (by simp [Vec3T.toBuf])) hbx.1 hbx.2,
      ty.unsigned_div hu (ha a.y (by simp [Vec3T.toBuf])) hby.1 hby.2,
      ty.unsigned_div hu (ha a.z (by simp [Vec3T.toBuf])) hbz.1 hbz.2]
    rfl
  · intro a b ha hb
    have hbx := hb b.x (by simp [Vec4T.toBuf])
    have hby := hb b.y (by simp [Vec4T.toBuf])
    have hbz := hb b.z (by simp [Vec4T.toBuf])
    have hbw := hb b.w (by simp [Vec4T.toBuf])
    unfold Vec4T.div
    rw [ty.unsigned_div hu (ha a.x (by simp [Vec4T.toBuf])) hbx.1 hbx.2,
      ty.unsigned_div hu (ha a.y (by simp [Vec4T.toBuf])) hby.1 hby.2,
      ty.unsigned_div hu (ha a.z (by simp [Vec4T.toBuf])) hbz.1 hbz.2,
      ty.unsigned_div hu (ha a.w (by simp [Vec4T.toBuf])) hbw.1 hbw.2]
    rfl
  · intro a b ha hb
    rw [Option.isSome_iff_exists]
    constructor
    · rintro ⟨q, hq⟩
      exact (cInt_zip_fits _ _ ha hb).mp ((vec2_int_div_eq_some cInt a b q).mp hq).1
    · intro h
      exact ⟨⟨cInt.conv (Int.tdiv a.x b.x), cInt.conv (Int.tdiv a.y b.y)⟩,
        (vec2_int_div_eq_some cInt a b _).mpr ⟨(cInt_zip_fits _ _ ha hb).mpr h, rfl⟩⟩
  · intro a b ha hb
    rw [Option.isSome_iff_exists]
    constructor
    · rintro ⟨q, hq⟩
      exact (cInt_zip_fits _ _ ha hb).mp ((vec3_int_div_eq_some cInt a b q).mp hq).1
    · intro h
      exact ⟨⟨cInt.conv (Int.tdiv a.x b.x), cInt.conv (Int.tdiv a.y b.y),
          cInt.conv (Int.tdiv a.z b.z)⟩,
        (vec3_int_div_eq_some cInt a b _).mpr ⟨(cInt_zip_fits _ _ ha hb).mpr h, rfl⟩⟩
  · intro a b ha hb
    rw [Option.isSome_iff_exists]
    constructor
    · rintro ⟨q, hq⟩
      exact (cInt_zip_fits _ _ ha hb).mp ((vec4_int_div_eq_some cInt a b q).mp hq).1
    · intro h
      exact ⟨⟨cInt.conv (Int.tdiv a.x b.x), cInt.conv (Int.tdiv a.y b.y),
          cInt.conv (Int.tdiv a.z b.z), cInt.conv (Int.tdiv a.w b.w)⟩,
        (vec4_int_div_eq_some cInt a b _).mpr ⟨(cInt_zip_fits _ _ ha hb).mpr h, rfl⟩⟩

/-- C15, amended, at concrete operands: a zero divisor component on `int`, in-range operands on
`unsigned char`, and on `int` a vector division that exists (with a negative quotient). -/
theorem div_defined_iff_witness :
    Vec4T.div cInt.scalar ⟨1, 2, 3, 4⟩ ⟨1, 0, 1, 1⟩ = none ∧
    Vec4T.div cUChar.scalar ⟨200, 7, 0, 255⟩ ⟨3, 2, 9, 255⟩ =
      some ⟨200 / 3, 7 / 2, 0 / 9, 255 / 255⟩ ∧
    (Vec2T.div cInt.scalar ⟨-7, 2147483647⟩ ⟨2, -1⟩).isSome = true :=
  ⟨(div_defined_iff cInt).2.2.2.2.2.2.1 ⟨1, 2, 3, 4⟩ ⟨1, 0, 1, 1⟩ (by decide),
    ((div_defined_iff cUChar).2.2.2.2.2.2.2.2.1 rfl).2.2 ⟨200, 7, 0, 255⟩ ⟨3, 2, 9, 255⟩
      (by decide) (by decide),
    ((div_defined_iff cInt).2.2.2.2.2.2.2.2.2.1 ⟨-7, 2147483647⟩ ⟨2, -1⟩ (by decide)
      (by decide)).mpr (by decide)⟩

end CmpMath
